import Mathlib

/-!
Verification development for the routicorn routing layer.

Routes form a tree; a route's identity is its position in that tree.  We
represent a position as the list of child indices walking from the route UP to
the root (`RPath`), so that the parent of a route is the tail of its path and
the root route is the empty path.  The tree itself (`RTree`) records, for every
node, whether the route is actionable (an action route) and its ordered
children.

The definitions below are shallow embeddings of the JavaScript source:

* `reachesAncestor`, `isChildRouteOf`, `isSiblingOf`, `findConnectingRoute`,
  `getParentRoutes` embed the tree-navigation methods of `BaseRoute`
  (src/lib/route/base.js, second variant, lines 1087-1151); stepping to
  `getParentRoute()` is taking the tail of the path.
* `computeDispatch` embeds the dispatch-point computation of
  `forwardSubRequest` (src/lib/request.js, lines 168-187).
-/

namespace Routicorn

/-- A route's position in the route tree: child indices from the route up to
the root, so `p.tail` is the parent route and `[]` is the root route. -/
abbrev RPath := List Nat

/-- The route tree: each node carries its actionable flag and ordered children. -/
inductive RTree where
  | node (actionable : Bool) (children : List RTree)

/-- Look up the subtree at a root-first index list. -/
def RTree.lookup : List Nat → RTree → Option RTree
  | [], t => some t
  | i :: rest, .node _ cs => (cs.get? i).bind (RTree.lookup rest)

/-- The actionable flag of the route at path `p` (false when `p` is not in the
tree).  `p` is leaf-first, so the tree is descended along `p.reverse`. -/
def actionableAt (T : RTree) (p : RPath) : Bool :=
  match RTree.lookup p.reverse T with
  | some (.node a _) => a
  | none => false

/-- The parent-walk loop of `BaseRoute#isChildRouteOf` (base.js lines
1127-1130): starting from `r`, repeatedly step to the parent and compare with
`t`; true exactly when some proper ancestor of `r` equals `t`. -/
def reachesAncestor (t : RPath) : RPath → Bool
  | [] => false
  | _ :: l => if l = t then true else reachesAncestor t l

/-- `BaseRoute#isChildRouteOf` (base.js lines 1118-1131, unbounded search
depth): false when the prospective parent is actionable or equal to the route
itself, otherwise walk the parent chain. -/
def isChildRouteOf (T : RTree) (self parent : RPath) : Bool :=
  if actionableAt T parent ∨ self = parent then false
  else reachesAncestor parent self

/-- `BaseRoute#isSiblingOf` (base.js lines 1147-1151): both routes have a
parent and the parents coincide.  Every non-root route has a parent (top-level
routes are parented by the root route itself). -/
def isSiblingOf (a b : RPath) : Bool :=
  ¬ b.isEmpty ∧ ¬ a.isEmpty ∧ b.tail = a.tail

/-- `BaseRoute#findConnectingRoute` (base.js lines 1101-1110) called as
`current.findConnectingRoute(target)`: walk up from the current route and
return the first route that is the root, the target itself, or an ancestor of
the target.  At the root route the `checkRoute.root` disjunct holds, so the
root is returned there and the walk never runs off the top. -/
def findConnectingRoute (T : RTree) (target : RPath) : RPath → Option RPath
  | [] => some []
  | a :: l =>
    if (a :: l) = target ∨ isChildRouteOf T target (a :: l) then some (a :: l)
    else findConnectingRoute T target l

/-- `BaseRoute#getParentRoutes` (base.js lines 1087-1094): collect parents from
the immediate parent upward, topmost first, stopping as soon as the walk stands
on `untilRoute` — so `untilRoute`, when reached, is the first element of the
result. -/
def getParentRoutes (untilRoute : Option RPath) : RPath → List RPath
  | [] => []
  | a :: l =>
    if some (a :: l) = untilRoute then []
    else getParentRoutes untilRoute l ++ [l]

/-- The dispatch-point computation of `forwardSubRequest` (request.js lines
168-187).  Returns `none` when no connecting route is found, otherwise
`(invokeActionDirectly, dispatchRoute)`; `dispatchRoute` is initialised to the
target route. -/
def computeDispatch (T : RTree) (current target : RPath) : Option (Bool × RPath) :=
  if isSiblingOf current target then some (true, target)
  else
    match findConnectingRoute T target current with
    | none => none
    | some conn =>
      let parentRoutes := getParentRoutes (some conn) target
      if parentRoutes.length < 2 then some (true, target)
      -- the guard guarantees length ≥ 2 here, so the default is never used
      else some (false, parentRoutes.getD 1 target)

/-- The chain described by the spec sentence for claim C1: the target's
ancestor chain strictly below the common ancestor `c`, not including `c` and
not including the target, topmost first.  With leaf-first paths, the strict
ancestors of `t` lying strictly below `c` are `t.drop k` for
`1 ≤ k ≤ t.length - c.length - 1`, and topmost first means largest `k` first.
This definition follows the claim's words and is only used to compare the
claim against `computeDispatch`. -/
def specChainBelow (c t : RPath) : List RPath :=
  ((List.range' 1 (t.length - c.length - 1)).map (fun k => t.drop k)).reverse

/-- If the parent walk from `t` reaches `c`, then `c` is the strict ancestor of
`t` obtained by dropping `t.length - c.length` leading indices. -/
theorem reachesAncestor_drop {c t : RPath} (h : reachesAncestor c t = true) :
    c.length < t.length ∧ t.drop (t.length - c.length) = c := by
  induction t with
  | nil => simp [reachesAncestor] at h
  | cons a l ih =>
    rw [reachesAncestor] at h
    by_cases hl : l = c
    · subst hl
      refine ⟨by simp, ?_⟩
      have h1 : (a :: l).length - l.length = 1 := by simp
      rw [h1]
      rfl
    · simp [hl] at h
      obtain ⟨h1, h2⟩ := ih h
      refine ⟨Nat.lt_succ_of_lt h1, ?_⟩
      have h3 : (a :: l).length - c.length = (l.length - c.length) + 1 := by
        simp [List.length_cons]; omega
      rw [h3, List.drop_succ_cons, h2]

/-- The connecting route returned by `findConnectingRoute` is always an
ancestor-or-self of the target. -/
theorem findConnectingRoute_drop {T : RTree} {t c conn : RPath}
    (h : findConnectingRoute T t c = some conn) :
    conn.length ≤ t.length ∧ t.drop (t.length - conn.length) = conn := by
  induction c with
  | nil =>
    simp [findConnectingRoute] at h
    subst h
    simp
  | cons a l ih =>
    rw [findConnectingRoute] at h
    by_cases hcond : (a :: l) = t ∨ isChildRouteOf T t (a :: l) = true
    · rw [if_pos hcond] at h
      have hconn : conn = a :: l := by
        injection h with h'
        exact h'.symm
      subst hconn
      rcases hcond with hc | hc
      · subst hc
        simp
      · rw [isChildRouteOf] at hc
        by_cases hg : (actionableAt T (a :: l) ∨ t = a :: l)
        · rw [if_pos hg] at hc
          simp at hc
        · rw [if_neg hg] at hc
          have h2 := reachesAncestor_drop hc
          exact ⟨Nat.le_of_lt h2.1, h2.2⟩
    · rw [if_neg hcond] at h
      exact ih h

/-- Closed form of `getParentRoutes` with a stop route that is an
ancestor-or-self of the walked route: the result is the list of ancestors of
`t` from the stop route (inclusive) down to the immediate parent of `t`. -/
theorem getParentRoutes_closed :
    ∀ (t conn : RPath), conn.length ≤ t.length →
      t.drop (t.length - conn.length) = conn →
      getParentRoutes (some conn) t =
        ((List.range' 1 (t.length - conn.length)).map (fun k => t.drop k)).reverse := by
  intro t
  induction t with
  | nil =>
    intro conn hle hdrop
    have h0 : conn = [] := List.length_eq_zero.mp (Nat.le_zero.mp hle)
    subst h0
    simp [getParentRoutes]
  | cons a l ih =>
    intro conn hle hdrop
    by_cases hct : conn = a :: l
    · subst hct
      simp [getParentRoutes]
    · have hlt : conn.length < (a :: l).length := by
        rcases Nat.lt_or_ge conn.length (a :: l).length with h | h
        · exact h
        · exfalso
          have h0 : (a :: l).length - conn.length = 0 := Nat.sub_eq_zero_of_le h
          rw [h0] at hdrop
          simp at hdrop
          exact hct hdrop.symm
      have hle' : conn.length ≤ l.length := by
        simp [List.length_cons] at hlt
        omega
      have hsub : (a :: l).length - conn.length = (l.length - conn.length) + 1 := by
        simp [List.length_cons]; omega
      have hdrop' : l.drop (l.length - conn.length) = conn := by
        rw [hsub, List.drop_succ_cons] at hdrop
        exact hdrop
      rw [getParentRoutes]
      have hne : ¬ some (a :: l) = some conn := by
        simp
        intro hh
        exact hct hh.symm
      rw [if_neg hne, ih conn hle' hdrop']
      rw [hsub, List.range'_succ]
      have hmap : (List.range' 2 (l.length - conn.length)).map (fun k => (a :: l).drop k)
          = (List.range' 1 (l.length - conn.length)).map (fun k => l.drop k) := by
        rw [List.range'_eq_map_range, List.range'_eq_map_range, List.map_map, List.map_map]
        apply List.map_congr_left
        intro j _
        show (a :: l).drop (2 + j) = l.drop (1 + j)
        have h21 : 2 + j = (1 + j) + 1 := by omega
        rw [h21, List.drop_succ_cons]
      simp only [List.map_cons, List.reverse_cons, hmap]
      simp

/-- C1: For a forward from a current route to an actionable target route in the
same tree: siblings dispatch directly; otherwise, with `conn` the connecting
(nearest common) ancestor found by walking the current route's chain, the
forward dispatches directly exactly when the target's strict ancestor chain
below `conn` is empty (the target is the connecting route's immediate child, or
the connecting route is the target itself); otherwise it re-enters the tree at
the FIRST node of that chain, which is the common ancestor's immediate child
toward the target.  (The claim as stated — direct dispatch when the chain has
fewer than two nodes, re-entry at the chain's second node — does not match the
code; see the counterexample.) -/
theorem claim_C1 (T : RTree) (c t conn : RPath) :
    (isSiblingOf c t = true → computeDispatch T c t = some (true, t)) ∧
    (isSiblingOf c t = false → findConnectingRoute T t c = some conn →
      (specChainBelow conn t = [] → computeDispatch T c t = some (true, t)) ∧
      (∀ d ds, specChainBelow conn t = d :: ds →
        computeDispatch T c t = some (false, d) ∧ d.tail = conn)) := by
  constructor
  · intro hsib
    rw [computeDispatch, if_pos (by simp [hsib])]
  · intro hsib hconn
    obtain ⟨hle, hdrop⟩ := findConnectingRoute_drop hconn
    have hgpr := getParentRoutes_closed t conn hle hdrop
    have hlen : (getParentRoutes (some conn) t).length = t.length - conn.length := by
      simp [hgpr]
    constructor
    · intro hchain
      have hn1 : t.length - conn.length - 1 = 0 := by
        have h := congrArg List.length hchain
        simpa [specChainBelow] using h
      rw [computeDispatch, if_neg (by simp [hsib]), hconn]
      simp only []
      rw [if_pos]
      rw [hlen]
      omega
    · intro d ds hchain
      have hlc : t.length - conn.length - 1 = ds.length + 1 := by
        have h := congrArg List.length hchain
        simpa [specChainBelow] using h
      obtain ⟨m, hm⟩ : ∃ m, t.length - conn.length = m + 2 := ⟨ds.length, by omega⟩
      have hrange : List.range' 1 (t.length - conn.length - 1) = List.range' 1 m ++ [1 + m] := by
        rw [hm]
        show List.range' 1 (m + 1) = _
        rw [List.range'_1_concat]
      have hchain' : specChainBelow conn t
          = t.drop (1 + m) :: ((List.range' 1 m).map (fun k => t.drop k)).reverse := by
        rw [specChainBelow, hrange]
        simp
      have hd : d = t.drop (1 + m) := by
        rw [hchain'] at hchain
        exact (List.cons.injEq _ _ _ _ ▸ hchain).1.symm
      have hpr : getParentRoutes (some conn) t
          = t.drop (1 + (m + 1)) :: t.drop (1 + m)
              :: ((List.range' 1 m).map (fun k => t.drop k)).reverse := by
        rw [hgpr, hm]
        show ((List.range' 1 (m + 2)).map (fun k => t.drop k)).reverse = _
        rw [List.range'_1_concat, List.range'_1_concat]
        simp
      rw [computeDispatch, if_neg (by simp [hsib]), hconn]
      simp only []
      rw [if_neg]
      · constructor
        · rw [hpr]
          simp [List.getD, hd]
        · rw [hd, List.tail_drop]
          have h2 : 1 + m + 1 = t.length - conn.length := by omega
          rw [h2, hdrop]
      · rw [hlen]
        omega

/-- The concrete tree used to refute claim C1 as stated: a root with two
children, the segment `s1` (index 0) and the action route `B` (index 1), where
`s1` contains the segment `s2` which contains the action route `A`.  In
leaf-first path notation `B = [1]` and `A = [0, 0, 0]`. -/
def claimC1Tree : RTree :=
  .node false [.node false [.node false [.node true []]], .node true []]

/-- C1 counterexample: forwarding from `B` to `A` in `claimC1Tree`, the
connecting ancestor is the root, the strict chain below it is
`[s1, s2] = [[0], [0, 0]]`; the code re-enters at `[0]` (the chain's FIRST
node), not at the chain's second node `[0, 0]` as the claim states.  Moreover,
in the smaller tree obtained by dropping `s2`, the chain `[[0]]` has fewer than
two nodes, yet the code still does not dispatch directly, contradicting the
claim's "fewer than two nodes" clause. -/
theorem claim_C1_counterexample :
    isSiblingOf [1] [0, 0, 0] = false ∧
    findConnectingRoute claimC1Tree [0, 0, 0] [1] = some [] ∧
    specChainBelow [] [0, 0, 0] = [[0], [0, 0]] ∧
    computeDispatch claimC1Tree [1] [0, 0, 0] = some (false, [0]) ∧
    ([0] : RPath) ≠ [0, 0] ∧
    (specChainBelow [] [0, 0] = [[0]] ∧
      computeDispatch (.node false [.node false [.node true []], .node true []])
        [1] [0, 0] = some (false, [0])) := by
  decide

/-- Witness for `claim_C1` at the concrete tree `claimC1Tree`. -/
theorem claim_C1_witness :
    computeDispatch claimC1Tree [1] [0, 0, 0] = some (false, [0]) ∧
    ([0] : RPath).tail = [] :=
  ((claim_C1 claimC1Tree [1] [0, 0, 0] []).2 (by decide) (by decide)).2
    [0] [[0, 0]] (by decide)

/-!
The forward protocol (src/lib/request.js, `forwardSubRequest`, lines 118-233).
Route attributes are those of `ActionRoute` (src/unnamed/part_003, first
variant, lines 20-172): the list of handled verbs (`methods`, with `all` last
when a catch-all handler exists), the first defined verb (`method`), the
`verbStyle` and `handlesAllMethods` flags.  The synthesized sub-request is
built by `createSubRequest` (src/lib/utils.js, lines 104-141).
-/

/-- JavaScript `toLowerCase` on the ASCII strings involved here, as a
characterwise map (the core `String.toLower` does not reduce in the kernel). -/
def toLowerCase (s : String) : String := ⟨s.data.map Char.toLower⟩

/-- JavaScript `toUpperCase`, as a characterwise map. -/
def toUpperCase (s : String) : String := ⟨s.data.map Char.toUpper⟩

/-- Attributes of a registered route as used by the forwarder: unique name,
tree position, actionable flag, `verbStyle` and `handlesAllMethods` flags, and
the list of handled verbs (lowercase, in definition order). -/
structure RouteRef where
  name : String
  path : RPath
  actionable : Bool
  verbStyle : Bool
  handlesAllMethods : Bool
  verbs : List String
  deriving DecidableEq, Repr

/-- `ActionRoute#handlesMethod` (part_003 lines 242-244): catch-all routes
handle every verb, otherwise the lowercased verb must have a handler. -/
def handlesMethod (r : RouteRef) (verb : String) : Bool :=
  r.handlesAllMethods ∨ r.verbs.contains (toLowerCase verb)

/-- The request context fields relevant to forwarding.  `history` models the
`_routicornForwardHistory` property: absent on an original request, present on
forwarded sub-requests. -/
structure Req where
  method : String
  url : String
  params : List (String × String)
  query : List (String × String)
  body : String
  history : Option (List RouteRef)
  deriving DecidableEq, Repr

/-- The failure modes of `forwardSubRequest` (each is a `thr(...)` call in
request.js; `loopDetected` carries the route names enumerated in the message). -/
inductive FwdErr where
  | unknownRoute (name : String)
  | nonActionRoute (name : String)
  | selfForward (name : String)
  | verbMismatch (name : String) (verb : String)
  | loopDetected (chain : List String)
  | noDispatchRoute (name : String)
  deriving DecidableEq, Repr

/-- Result of a successful forward: the synthesized sub-request, the current
request as it stands after the forward (its history array may have grown by
the shared push), the request installed in the response's current-request slot
while the dispatch runs (line 215: `res.req = dispatchReq`), and the computed
dispatch point. -/
structure ForwardOk where
  subReq : Req
  updatedCurrent : Req
  resReqDuringDispatch : Req
  direct : Bool
  dispatch : RPath
  deriving DecidableEq, Repr

/-- `createSubRequest` (utils.js lines 104-141) as it applies to the modeled
fields: the method is uppercased, params/query/url come from the prepared
props, the body is shared with the parent chain, and the prepared forward
history is installed. -/
def createSubRequest (parentReq : Req) (method url : String)
    (params query : List (String × String)) (hist : List RouteRef) : Req :=
  { method := toUpperCase method
    url := url
    params := params
    query := query
    body := parentReq.body
    history := some hist }

/-- The verb-determination step of `forwardSubRequest` (request.js lines
141-149): keep the requested verb when the target handles it; otherwise fall
back to the target's sole defined verb when it defines exactly one; otherwise
fail. -/
def determineSubRequestMethod (routeName : String) (target : RouteRef)
    (verb : String) : Except FwdErr String :=
  if handlesMethod target verb then .ok verb
  else if target.verbs.length = 1 then .ok (target.verbs.headD "")
  else .error (.verbMismatch routeName verb)

/-- The history/loop-detection step of `forwardSubRequest` (request.js lines
151-162).  When the current request carries a history, a target already in it
is a loop (the error carries the full chain of names); otherwise the target is
pushed onto the shared history array, which also updates the current request.
When the current request has no history (an original request), a fresh history
seeded with the current route and the target is prepared for the sub-request
and the current request is untouched. -/
def checkRequestHistory (currentReq : Req) (currentRoute target : RouteRef) :
    Except FwdErr (List RouteRef × Req) :=
  match currentReq.history with
  | some h =>
    if target ∈ h then
      .error (.loopDetected (h.map (fun r => r.name) ++ [target.name]))
    else
      let newHist := h ++ [target]
      .ok (newHist, { currentReq with history := some newHist })
  | none => .ok ([currentRoute, target], currentReq)

/-- `forwardSubRequest` (request.js lines 118-233).  The URL of the
sub-request is computed by slicing the target's generated path at the dispatch
route (lines 189-203); no claim depends on it, so the generated URL is taken
as the input `generatedUrl`. -/
def forwardSubRequest (T : RTree) (registry : List RouteRef)
    (currentReq : Req) (currentRoute : RouteRef) (routeName : String)
    (verbArg propsMethod : Option String)
    (propsParams propsQuery : Option (List (String × String)))
    (generatedUrl : String) : Except FwdErr ForwardOk :=
  match registry.find? (fun r => r.name = routeName) with
  | none => .error (.unknownRoute routeName)
  | some targetRoute =>
    if targetRoute.actionable = false then .error (.nonActionRoute routeName)
    else if currentRoute = targetRoute ∧ targetRoute.verbStyle = false then
      .error (.selfForward routeName)
    else
      let verb := toLowerCase (verbArg.getD (propsMethod.getD currentReq.method))
      match determineSubRequestMethod routeName targetRoute verb with
      | .error e => .error e
      | .ok effVerb =>
        match checkRequestHistory currentReq currentRoute targetRoute with
        | .error e => .error e
        | .ok (newHist, updatedCurrent) =>
          let params := propsParams.getD currentReq.params
          let query := propsQuery.getD currentReq.query
          match computeDispatch T currentRoute.path targetRoute.path with
          | none => .error (.noDispatchRoute targetRoute.name)
          | some (direct, dispatch) =>
            let dispatchReq :=
              createSubRequest updatedCurrent effVerb generatedUrl params query newHist
            .ok { subReq := dispatchReq
                  updatedCurrent := updatedCurrent
                  resReqDuringDispatch := dispatchReq
                  direct := direct
                  dispatch := dispatch }

/-- Observable steps of the completion callback passed to the dispatch (lines
227-231): tear down the sub-request, restore the current request into the
response's current-request slot, then invoke the forwarding caller's callback
with the dispatch error. -/
inductive CompletionEvent where
  | teardownSubRequest
  | setResReq (r : Req)
  | callNext (e : Option String)
  deriving DecidableEq, Repr

/-- The completion callback of `forwardSubRequest` (request.js lines 227-231)
as the ordered list of its observable steps. -/
def forwardComplete (fo : ForwardOk) (err : Option String) : List CompletionEvent :=
  [.teardownSubRequest, .setResReq fo.updatedCurrent, .callNext err]

deriving instance DecidableEq for Except

/-- Decidable success test for `Except` results. -/
def exceptIsOk {ε α : Type _} : Except ε α → Bool
  | .ok _ => true
  | .error _ => false

/-- The connecting-route walk always returns a route: the root route satisfies
the walk's stopping condition. -/
theorem findConnectingRoute_isSome (T : RTree) (t : RPath) :
    ∀ c, (findConnectingRoute T t c).isSome = true := by
  intro c
  induction c with
  | nil => rfl
  | cons a l ih =>
    rw [findConnectingRoute]
    by_cases h : (a :: l) = t ∨ isChildRouteOf T t (a :: l) = true
    · rw [if_pos h]
      rfl
    · rw [if_neg h]
      exact ih

/-- The dispatch-point computation always produces a dispatch decision. -/
theorem computeDispatch_some (T : RTree) (c t : RPath) :
    ∃ dd, computeDispatch T c t = some dd := by
  rw [computeDispatch]
  by_cases hs : isSiblingOf c t = true
  · rw [if_pos (by simp [hs])]
    exact ⟨_, rfl⟩
  · rw [if_neg (by simp [hs])]
    cases hf : findConnectingRoute T t c with
    | none =>
      have h2 := findConnectingRoute_isSome T t c
      rw [hf] at h2
      simp at h2
    | some conn =>
      simp only []
      by_cases hl : (getParentRoutes (some conn) t).length < 2
      · rw [if_pos hl]
        exact ⟨_, rfl⟩
      · rw [if_neg hl]
        exact ⟨_, rfl⟩

/-- Shape of a successful forward, given that every validation step passes. -/
theorem forwardSubRequest_ok_of (T : RTree) (registry : List RouteRef)
    (currentReq : Req) (currentRoute target : RouteRef) (routeName : String)
    (verbArg propsMethod : Option String)
    (propsParams propsQuery : Option (List (String × String)))
    (generatedUrl : String) (effVerb : String) (nh : List RouteRef) (uc : Req)
    (direct : Bool) (dispatch : RPath)
    (hfind : registry.find? (fun r => r.name = routeName) = some target)
    (hact : target.actionable = true)
    (hself : ¬ (currentRoute = target ∧ target.verbStyle = false))
    (hverb : determineSubRequestMethod routeName target
      (toLowerCase (verbArg.getD (propsMethod.getD currentReq.method))) = .ok effVerb)
    (hch : checkRequestHistory currentReq currentRoute target = .ok (nh, uc))
    (hcd : computeDispatch T currentRoute.path target.path = some (direct, dispatch)) :
    forwardSubRequest T registry currentReq currentRoute routeName verbArg
        propsMethod propsParams propsQuery generatedUrl
      = .ok { subReq := createSubRequest uc effVerb generatedUrl
                (propsParams.getD currentReq.params) (propsQuery.getD currentReq.query) nh
              updatedCurrent := uc
              resReqDuringDispatch := createSubRequest uc effVerb generatedUrl
                (propsParams.getD currentReq.params) (propsQuery.getD currentReq.query) nh
              direct := direct
              dispatch := dispatch } := by
  simp [forwardSubRequest, hfind, hact, hself, hverb, hch, hcd]

/-- C2: Loop detection against the forwarding history, as the code implements
it: a history exists only on forwarded sub-requests; when the current request
carries a history `h` and the resolved target (which passed the
actionability/self-forward/verb checks, all of which run first) already
appears in `h`, the forward fails with a loop error whose message enumerates
the names of `h` followed by the target's name, and no dispatch occurs;
otherwise the target is appended and the extended history is carried into the
sub-request (and, via the shared array, onto the current request).  On a first
forward from an original request (no history) no loop check occurs; see the
counterexample for the resulting deviation from the claim as stated. -/
theorem claim_C2 (T : RTree) (registry : List RouteRef) (currentReq : Req)
    (currentRoute target : RouteRef) (routeName : String)
    (verbArg propsMethod : Option String)
    (propsParams propsQuery : Option (List (String × String)))
    (generatedUrl : String) (h : List RouteRef) (effVerb : String)
    (hfind : registry.find? (fun r => r.name = routeName) = some target)
    (hact : target.actionable = true)
    (hself : ¬ (currentRoute = target ∧ target.verbStyle = false))
    (hverb : determineSubRequestMethod routeName target
      (toLowerCase (verbArg.getD (propsMethod.getD currentReq.method))) = .ok effVerb)
    (hhist : currentReq.history = some h) :
    (target ∈ h →
      forwardSubRequest T registry currentReq currentRoute routeName verbArg
          propsMethod propsParams propsQuery generatedUrl
        = .error (.loopDetected (h.map (fun r => r.name) ++ [target.name]))) ∧
    (target ∉ h →
      ∃ fo, forwardSubRequest T registry currentReq currentRoute routeName verbArg
          propsMethod propsParams propsQuery generatedUrl = .ok fo ∧
        fo.subReq.history = some (h ++ [target]) ∧
        fo.updatedCurrent.history = some (h ++ [target])) := by
  constructor
  · intro hmem
    simp [forwardSubRequest, hfind, hact, hself, hverb, checkRequestHistory, hhist, hmem]
  · intro hmem
    have hch : checkRequestHistory currentReq currentRoute target
        = .ok (h ++ [target], { currentReq with history := some (h ++ [target]) }) := by
      simp [checkRequestHistory, hhist, hmem]
    obtain ⟨⟨direct, dispatch⟩, hcd⟩ := computeDispatch_some T currentRoute.path target.path
    exact ⟨_, forwardSubRequest_ok_of T registry currentReq currentRoute target routeName
        verbArg propsMethod propsParams propsQuery generatedUrl effVerb _ _ direct dispatch
        hfind hact hself hverb hch hcd,
      by simp [createSubRequest], rfl⟩

/-- A verb-style action route used to refute claim C2 as stated: it can be
forwarded to from itself. -/
def verbStyleSelf : RouteRef :=
  { name := "A", path := [0], actionable := true, verbStyle := true,
    handlesAllMethods := false, verbs := ["get", "post"] }

/-- A tree holding only `verbStyleSelf` under the root. -/
def selfTree : RTree := .node false [.node true []]

/-- An original (non-forwarded) request: it carries no forwarding history. -/
def originalReq : Req :=
  { method := "GET", url := "/a", params := [], query := [], body := "", history := none }

/-- The forwarding history as claim C2 describes it: kept per original request
and "seeded with the entry node" — so for an original request, on its first
forward, the singleton list holding the current (entry) route.  This
definition follows the claim's words and is only used to compare the claim
against the code. -/
def specSeededHistory (req : Req) (entry : RouteRef) : List RouteRef :=
  (req.history).getD [entry]

/-- C2 counterexample: on the first forward of an original request the code
performs no loop check at all (`_routicornForwardHistory` is still undefined).
Forwarding from the verb-style route `A` to `A` itself, the target does appear
in the claim's seeded history `[A]`, yet the forward succeeds instead of
failing with a loop error. -/
theorem claim_C2_counterexample :
    verbStyleSelf ∈ specSeededHistory originalReq verbStyleSelf ∧
    exceptIsOk (forwardSubRequest selfTree [verbStyleSelf] originalReq verbStyleSelf "A"
      none none none none "/a") = true := by decide

/-- Action route `A`, a child of the root. -/
def routeA : RouteRef :=
  { name := "A", path := [0], actionable := true, verbStyle := false,
    handlesAllMethods := false, verbs := ["get"] }

/-- Action route `B`, a child of the root. -/
def routeB : RouteRef :=
  { name := "B", path := [1], actionable := true, verbStyle := false,
    handlesAllMethods := false, verbs := ["get"] }

/-- Action route `C`, a child of the root. -/
def routeC : RouteRef :=
  { name := "C", path := [2], actionable := true, verbStyle := false,
    handlesAllMethods := false, verbs := ["get"] }

/-- A root with the three action routes `A`, `B`, `C` as children. -/
def threeActionTree : RTree := .node false [.node true [], .node true [], .node true []]

/-- The sub-request produced by forwarding an original request from `A` to
`B`: its history is `[A, B]` and its current route is `B`. -/
def subReqAtB : Req :=
  { method := "GET", url := "/b", params := [], query := [], body := "",
    history := some [routeA, routeB] }

/-- Witness for `claim_C2`: forwarding `A → B` and then, inside `B`'s handler,
back to `A` fails with a loop error enumerating `A → B → A`. -/
theorem claim_C2_witness :
    forwardSubRequest threeActionTree [routeA, routeB, routeC] subReqAtB routeB "A"
        none none none none "/a"
      = .error (.loopDetected ["A", "B", "A"]) := by
  have h := (claim_C2 threeActionTree [routeA, routeB, routeC] subReqAtB routeB routeA "A"
      none none none none "/a" [routeA, routeB] "get"
      (by decide) (by decide) (by decide) (by decide) rfl).1 (by decide)
  simpa [routeA, routeB] using h

/-- C3: For a forward without an explicit verb override (no verb argument and
no `props.method`): the sub-request's method is the current request's verb when
the target handles it; otherwise the target's sole defined verb when the
target defines exactly one; otherwise the forward fails with a verb-mismatch
error instead of silently choosing a verb. -/
theorem claim_C3 (T : RTree) (registry : List RouteRef) (currentReq : Req)
    (currentRoute target : RouteRef) (routeName : String)
    (propsParams propsQuery : Option (List (String × String)))
    (generatedUrl : String)
    (hfind : registry.find? (fun r => r.name = routeName) = some target)
    (hact : target.actionable = true)
    (hself : ¬ (currentRoute = target ∧ target.verbStyle = false))
    (hnoloop : ∀ hh, currentReq.history = some hh → target ∉ hh) :
    (handlesMethod target (toLowerCase currentReq.method) = true →
      ∃ fo, forwardSubRequest T registry currentReq currentRoute routeName none
          none propsParams propsQuery generatedUrl = .ok fo ∧
        fo.subReq.method = toUpperCase (toLowerCase currentReq.method)) ∧
    (handlesMethod target (toLowerCase currentReq.method) = false →
      target.verbs.length = 1 →
      ∃ fo, forwardSubRequest T registry currentReq currentRoute routeName none
          none propsParams propsQuery generatedUrl = .ok fo ∧
        fo.subReq.method = toUpperCase (target.verbs.headD "")) ∧
    (handlesMethod target (toLowerCase currentReq.method) = false →
      target.verbs.length ≠ 1 →
      forwardSubRequest T registry currentReq currentRoute routeName none
          none propsParams propsQuery generatedUrl
        = .error (.verbMismatch routeName (toLowerCase currentReq.method))) := by
  obtain ⟨nh, uc, hch⟩ : ∃ nh uc,
      checkRequestHistory currentReq currentRoute target = .ok (nh, uc) := by
    cases hh : currentReq.history with
    | none => exact ⟨[currentRoute, target], currentReq, by simp [checkRequestHistory, hh]⟩
    | some l =>
      exact ⟨l ++ [target], { currentReq with history := some (l ++ [target]) },
        by simp [checkRequestHistory, hh, hnoloop l hh]⟩
  obtain ⟨⟨direct, dispatch⟩, hcd⟩ := computeDispatch_some T currentRoute.path target.path
  refine ⟨?_, ?_, ?_⟩
  · intro hhandle
    have hverb : determineSubRequestMethod routeName target
        (toLowerCase (Option.getD none (Option.getD none currentReq.method)))
        = .ok (toLowerCase currentReq.method) := by
      simp [determineSubRequestMethod, hhandle]
    exact ⟨_, forwardSubRequest_ok_of T registry currentReq currentRoute target routeName
        none none propsParams propsQuery generatedUrl _ nh uc direct dispatch
        hfind hact hself hverb hch hcd,
      by simp [createSubRequest]⟩
  · intro hhandle hlen
    have hverb : determineSubRequestMethod routeName target
        (toLowerCase (Option.getD none (Option.getD none currentReq.method)))
        = .ok (target.verbs.headD "") := by
      simp [determineSubRequestMethod, hhandle, hlen]
    exact ⟨_, forwardSubRequest_ok_of T registry currentReq currentRoute target routeName
        none none propsParams propsQuery generatedUrl _ nh uc direct dispatch
        hfind hact hself hverb hch hcd,
      by simp [createSubRequest]⟩
  · intro hhandle hlen
    simp [forwardSubRequest, hfind, hact, hself, determineSubRequestMethod, hhandle, hlen]

/-- An action route defining only `post`. -/
def postOnlyRoute : RouteRef :=
  { name := "P", path := [0], actionable := true, verbStyle := false,
    handlesAllMethods := false, verbs := ["post"] }

/-- A verb-style action route defining `get` and `post`. -/
def getPostRoute : RouteRef :=
  { name := "GP", path := [1], actionable := true, verbStyle := true,
    handlesAllMethods := false, verbs := ["get", "post"] }

/-- The current action route of the verb-fallback scenarios. -/
def currentRouteQ : RouteRef :=
  { name := "Q", path := [2], actionable := true, verbStyle := false,
    handlesAllMethods := false, verbs := ["get", "put"] }

/-- A root with the three routes of the verb-fallback scenarios. -/
def verbTree : RTree := .node false [.node true [], .node true [], .node true []]

/-- A GET original request. -/
def reqGET : Req :=
  { method := "GET", url := "/q", params := [], query := [], body := "", history := none }

/-- A PUT original request. -/
def reqPUT : Req :=
  { method := "PUT", url := "/q", params := [], query := [], body := "", history := none }

/-- Witness for `claim_C3`: forwarding a GET request to a post-only target
yields a POST sub-request; forwarding a PUT request to a get-and-post target
without a verb fails with the verb-mismatch error. -/
theorem claim_C3_witness :
    (forwardSubRequest verbTree [postOnlyRoute, getPostRoute, currentRouteQ] reqGET
        currentRouteQ "P" none none none none "/p").map (fun fo => fo.subReq.method)
      = .ok "POST" ∧
    forwardSubRequest verbTree [postOnlyRoute, getPostRoute, currentRouteQ] reqPUT
        currentRouteQ "GP" none none none none "/gp"
      = .error (.verbMismatch "GP" "put") := by
  constructor
  · obtain ⟨fo, h1, h2⟩ :=
      (claim_C3 verbTree [postOnlyRoute, getPostRoute, currentRouteQ] reqGET
        currentRouteQ postOnlyRoute "P" none none "/p"
        (by decide) (by decide) (by decide)
        (by intro hh h; simp [reqGET] at h)).2.1 (by decide) (by decide)
    rw [h1]
    simp only [Except.map]
    rw [h2]
    decide
  · have h :=
      (claim_C3 verbTree [postOnlyRoute, getPostRoute, currentRouteQ] reqPUT
        currentRouteQ getPostRoute "GP" none none "/gp"
        (by decide) (by decide) (by decide)
        (by intro hh h; simp [reqPUT] at h)).2.2 (by decide) (by decide)
    simpa using h

/-- C8: On every successful forward, the synthesized sub-request sits in the
response's current-request slot while the dispatch runs; the completion
callback first detaches it, restores the current request into the slot, and
only then invokes the forwarding caller's callback with the dispatch error.
Every field of the restored request other than the forwarding history equals
its pre-forward value: for an original request (no history) the request is
entirely unchanged, while for a forwarded current request the shared history
gains the resolved target (so the claim's "every other field unchanged" fails
on the history field; see the counterexample). -/
theorem claim_C8 (T : RTree) (registry : List RouteRef) (currentReq : Req)
    (currentRoute target : RouteRef) (routeName : String)
    (verbArg propsMethod : Option String)
    (propsParams propsQuery : Option (List (String × String)))
    (generatedUrl : String) (effVerb : String)
    (hfind : registry.find? (fun r => r.name = routeName) = some target)
    (hact : target.actionable = true)
    (hself : ¬ (currentRoute = target ∧ target.verbStyle = false))
    (hverb : determineSubRequestMethod routeName target
      (toLowerCase (verbArg.getD (propsMethod.getD currentReq.method))) = .ok effVerb) :
    (currentReq.history = none →
      ∃ fo, forwardSubRequest T registry currentReq currentRoute routeName verbArg
          propsMethod propsParams propsQuery generatedUrl = .ok fo ∧
        fo.resReqDuringDispatch = fo.subReq ∧
        (∀ err, forwardComplete fo err
          = [.teardownSubRequest, .setResReq fo.updatedCurrent, .callNext err]) ∧
        fo.updatedCurrent = currentReq) ∧
    (∀ hh, currentReq.history = some hh → target ∉ hh →
      ∃ fo, forwardSubRequest T registry currentReq currentRoute routeName verbArg
          propsMethod propsParams propsQuery generatedUrl = .ok fo ∧
        fo.resReqDuringDispatch = fo.subReq ∧
        (∀ err, forwardComplete fo err
          = [.teardownSubRequest, .setResReq fo.updatedCurrent, .callNext err]) ∧
        fo.updatedCurrent = { currentReq with history := some (hh ++ [target]) }) := by
  obtain ⟨⟨direct, dispatch⟩, hcd⟩ := computeDispatch_some T currentRoute.path target.path
  constructor
  · intro hhist
    have hch : checkRequestHistory currentReq currentRoute target
        = .ok ([currentRoute, target], currentReq) := by
      simp [checkRequestHistory, hhist]
    exact ⟨_, forwardSubRequest_ok_of T registry currentReq currentRoute target routeName
        verbArg propsMethod propsParams propsQuery generatedUrl effVerb _ _ direct dispatch
        hfind hact hself hverb hch hcd,
      rfl, fun _ => rfl, rfl⟩
  · intro hh hhist hmem
    have hch : checkRequestHistory currentReq currentRoute target
        = .ok (hh ++ [target], { currentReq with history := some (hh ++ [target]) }) := by
      simp [checkRequestHistory, hhist, hmem]
    exact ⟨_, forwardSubRequest_ok_of T registry currentReq currentRoute target routeName
        verbArg propsMethod propsParams propsQuery generatedUrl effVerb _ _ direct dispatch
        hfind hact hself hverb hch hcd,
      rfl, fun _ => rfl, rfl⟩

/-- A current request that is itself a forwarded sub-request (history `[A]`),
standing at route `B`. -/
def nestedCurrentReq : Req :=
  { method := "GET", url := "/b", params := [], query := [], body := "",
    history := some [routeA] }

/-- C8 counterexample: a forward from a current request that is itself a
sub-request succeeds, but the current request is NOT left entirely unchanged —
its forwarding-history field (shared with the new sub-request) gains the
resolved target, so the restored request differs from the pre-forward one. -/
theorem claim_C8_counterexample :
    (forwardSubRequest threeActionTree [routeA, routeB, routeC] nestedCurrentReq routeB "C"
        none none none none "/c").map (fun fo => fo.updatedCurrent)
      = .ok { nestedCurrentReq with history := some [routeA, routeC] } ∧
    ({ nestedCurrentReq with history := some [routeA, routeC] } : Req) ≠ nestedCurrentReq := by
  decide

/-- Witness for `claim_C8` at a concrete nested forward: the completion events
restore the current request (with its grown history) before calling the
caller's callback with the dispatch error. -/
theorem claim_C8_witness :
    (forwardSubRequest threeActionTree [routeA, routeB, routeC] nestedCurrentReq routeB "C"
        none none none none "/c").map
      (fun fo => (forwardComplete fo (some "boom"), fo.updatedCurrent))
    = .ok ([.teardownSubRequest,
            .setResReq { nestedCurrentReq with history := some [routeA, routeC] },
            .callNext (some "boom")],
           { nestedCurrentReq with history := some [routeA, routeC] }) := by
  obtain ⟨fo, h1, h2, h3, h4⟩ :=
    (claim_C8 threeActionTree [routeA, routeB, routeC] nestedCurrentReq routeB routeC "C"
      none none none none "/c" "get"
      (by decide) (by decide) (by decide) (by decide)).2 [routeA] rfl (by decide)
  rw [h1]
  simp [Except.map, h3, h4]

/-!
Path generation (src/lib/route/base.js, second variant, `generatePath` lines
1177-1268 together with `_parsePattern` lines 1281-1348; the first variant,
lines 487-568, has the same per-segment logic).  A compiled pattern is a list
of segments: literals (with their clean value) and parameter descriptors
carrying the optional flag, the default value from the route config, and the
compiled requirement (modeled as a predicate on strings).  `generatePath`
walks the chain from the route itself up to the root (the chain list is
self-first), renders each level's segments left to right, then joins the
per-level strings root-first, collapses runs of slashes, trims leading and
trailing slashes, and prefixes a single `/`; a `?`-prefixed query string is
appended when the stringified query is nonempty.  JavaScript truthiness
matters: an empty-string value or default counts as absent. -/

/-- JavaScript string truthiness: the empty string is falsy. -/
def truthy (s : String) : Bool := s ≠ ""

/-- One segment of a compiled pattern (`_parsePattern`): a literal with its
clean value, or a parameter with its optional flag, default value and
compiled requirement. -/
inductive Seg where
  | literal (cleanValue : String)
  | param (name : String) (optional : Bool) (defaultValue : Option String)
      (regExp : Option (String → Bool))

/-- One route level of the generation chain: the route's name and its compiled
pattern segments. -/
structure RouteLevel where
  name : String
  segs : List Seg

/-- The two failure modes of path generation. -/
inductive GenErrKind where
  | missingParam
  | requirementFail
  deriving DecidableEq, Repr

/-- A path-generation error: its kind, the parameter it names, the route the
parameter is defined in, and the route chain reported for diagnostics
(`_getRouteChain`, root first). -/
structure GenErr where
  kind : GenErrKind
  param : String
  routeName : String
  chain : List String
  deriving DecidableEq, Repr

/-- Lookup of `params[p]`. -/
def lookupParam (params : List (String × String)) (p : String) : Option String :=
  (params.find? (fun kv => kv.1 = p)).map (fun kv => kv.2)

/-- The supplied value of parameter `p` after the `!val` truthiness test:
`none` when absent or falsy. -/
def paramValue (params : List (String × String)) (p : String) : Option String :=
  match lookupParam params p with
  | some v => if truthy v then some v else none
  | none => none

/-- The per-level reduce of `generatePath` (base.js lines 1213-1251): append
`/value` for every segment; a parameter takes the supplied value, else a
truthy default, else is skipped when optional and otherwise raises the
missing-parameter error; a requirement failure raises the requirement error
when `checkRequirements` holds. -/
def renderSegs (checkRequirements : Bool) (params : List (String × String))
    (routeName : String) (chain : List String) : List Seg → String → Except GenErr String
  | [], memo => .ok memo
  | .literal v :: rest, memo =>
    renderSegs checkRequirements params routeName chain rest (memo ++ "/" ++ v)
  | .param p opt dflt re :: rest, memo =>
    let vd : Option (String × Bool) :=
      match paramValue params p with
      | some v => some (v, false)
      | none =>
        match dflt with
        | some d => if truthy d then some (d, true) else none
        | none => none
    match vd with
    | none =>
      if opt then renderSegs checkRequirements params routeName chain rest memo
      else .error ⟨.missingParam, p, routeName, chain⟩
    | some (v, _useDefault) =>
      match re with
      | some f =>
        if checkRequirements ∧ ¬ f v then .error ⟨.requirementFail, p, routeName, chain⟩
        else renderSegs checkRequirements params routeName chain rest (memo ++ "/" ++ v)
      | none => renderSegs checkRequirements params routeName chain rest (memo ++ "/" ++ v)

/-- `_getRouteChain` (base.js lines 1464-1471): the chain of route names, root
first, for a chain list given self-first. -/
def routeChainNames (chain : List RouteLevel) : List String :=
  (chain.map (fun r => r.name)).reverse

/-- The do-while of `generatePath` (lines 1203-1252): render each level from
the route itself upward, unshifting the results, so the returned list is
root-first while errors surface in self-to-root order. -/
def renderChainSegs (checkRequirements : Bool) (params : List (String × String))
    (chainNames : List String) : List RouteLevel → Except GenErr (List String)
  | [] => .ok []
  | r :: rest => do
    let s ← renderSegs checkRequirements params r.name chainNames r.segs ""
    let tailSegs ← renderChainSegs checkRequirements params chainNames rest
    return tailSegs ++ [s]

/-- `replace(/\x2f+/g, '\x2f')`: collapse every run of slashes to one; the
flag records whether the previous emitted character was a slash. -/
def collapseSlashes : Bool → List Char → List Char
  | _, [] => []
  | prevSlash, c :: rest =>
    if c = '/' then
      if prevSlash then collapseSlashes true rest
      else '/' :: collapseSlashes true rest
    else c :: collapseSlashes false rest

/-- Leading-slash trim of `_.trim(s, '\x2f')`. -/
def trimLeadingSlashes (l : List Char) : List Char := l.dropWhile (fun c => c = '/')

/-- Trailing-slash trim of `_.trim(s, '\x2f')`. -/
def trimTrailingSlashes : List Char → List Char
  | [] => []
  | c :: rest =>
    match trimTrailingSlashes rest with
    | [] => if c = '/' then [] else [c]
    | r => c :: r

/-- `_.trim(s, '\x2f')`: remove leading and trailing slashes. -/
def trimSlashes (l : List Char) : List Char := trimTrailingSlashes (trimLeadingSlashes l)

/-- `generatePath` (base.js lines 1177-1268): render the chain, join the
per-level strings, collapse and trim slashes, prefix `/`, append the
`?`-prefixed query string when nonempty (`queryString` stands for the
`qs.stringify` result). -/
def generatePath (checkRequirements : Bool) (params : List (String × String))
    (queryString : String) (chain : List RouteLevel) : Except GenErr String := do
  let segs ← renderChainSegs checkRequirements params (routeChainNames chain) chain
  let joined := String.join segs
  let path := "/" ++ String.mk (trimSlashes (collapseSlashes false joined.data))
  return path ++ (if queryString = "" then "" else "?" ++ queryString)

/-- A segment that is a mandatory parameter with no (truthy) default whose
value the params map does not supply: exactly the situation of claim C4. -/
def mandatoryMissing (params : List (String × String)) : Seg → Bool
  | .literal _ => false
  | .param p opt dflt _ =>
    !opt && (paramValue params p).isNone &&
      (match dflt with | some d => !truthy d | none => true)

/-- Every error raised while rendering one level reports the route chain it
was given, and a missing-parameter error always names a parameter the params
map does not supply. -/
theorem renderSegs_error_inv (cr : Bool) (params : List (String × String))
    (rn : String) (ch : List String) :
    ∀ (segs : List Seg) (memo : String) (e : GenErr),
      renderSegs cr params rn ch segs memo = .error e →
      e.chain = ch ∧ e.routeName = rn ∧
      (e.kind = GenErrKind.missingParam → paramValue params e.param = none) := by
  intro segs
  induction segs with
  | nil =>
    intro memo e h
    simp [renderSegs] at h
  | cons s rest ih =>
    intro memo e h
    cases s with
    | literal v =>
      rw [renderSegs] at h
      exact ih _ _ h
    | param p opt dflt re =>
      simp only [renderSegs] at h
      split at h
      · rename_i hvd
        have hpv : paramValue params p = none := by
          cases hp : paramValue params p with
          | some v => rw [hp] at hvd; simp at hvd
          | none => rfl
        split at h
        · exact ih _ _ h
        · injection h with h'
          subst h'
          exact ⟨rfl, rfl, fun _ => hpv⟩
      · split at h
        · split at h
          · injection h with h'
            subst h'
            refine ⟨rfl, rfl, fun hk => ?_⟩
            simp at hk
          · exact ih _ _ h
        · exact ih _ _ h

/-- Rendering a level that contains a mandatory parameter with no default and
no supplied value always fails. -/
theorem renderSegs_error_exists (cr : Bool) (params : List (String × String))
    (rn : String) (ch : List String) :
    ∀ (segs : List Seg), (∃ s ∈ segs, mandatoryMissing params s = true) →
      ∀ memo, ∃ e, renderSegs cr params rn ch segs memo = .error e := by
  intro segs
  induction segs with
  | nil =>
    intro hex memo
    simp at hex
  | cons s rest ih =>
    intro hex memo
    cases s with
    | literal v =>
      rw [renderSegs]
      apply ih
      rcases hex with ⟨s, hs, hmm⟩
      rcases List.mem_cons.mp hs with hs | hs
      · subst hs
        simp [mandatoryMissing] at hmm
      · exact ⟨s, hs, hmm⟩
    | param p opt dflt re =>
      by_cases hhead : mandatoryMissing params (.param p opt dflt re) = true
      · simp only [mandatoryMissing] at hhead
        cases dflt with
        | none =>
          simp only [Bool.and_eq_true, Bool.not_eq_true'] at hhead
          obtain ⟨⟨hopt, hpv⟩, -⟩ := hhead
          refine ⟨⟨GenErrKind.missingParam, p, rn, ch⟩, ?_⟩
          simp [renderSegs, Option.isNone_iff_eq_none.mp hpv, hopt]
        | some d =>
          simp only [Bool.and_eq_true, Bool.not_eq_true'] at hhead
          obtain ⟨⟨hopt, hpv⟩, htd⟩ := hhead
          refine ⟨⟨GenErrKind.missingParam, p, rn, ch⟩, ?_⟩
          simp [renderSegs, Option.isNone_iff_eq_none.mp hpv, hopt, htd]
      · have hrest : ∃ s ∈ rest, mandatoryMissing params s = true := by
          rcases hex with ⟨s, hs, hmm⟩
          rcases List.mem_cons.mp hs with hs | hs
          · subst hs
            exact absurd hmm hhead
          · exact ⟨s, hs, hmm⟩
        simp only [renderSegs]
        split
        · split
          · exact ih hrest _
          · exact ⟨_, rfl⟩
        · split
          · split
            · exact ⟨_, rfl⟩
            · exact ih hrest _
          · exact ih hrest _



theorem renderChainSegs_error_inv (cr : Bool) (params : List (String × String))
    (cn : List String) :
    ∀ (chain : List RouteLevel) (e : GenErr),
      renderChainSegs cr params cn chain = .error e →
      e.chain = cn ∧ (e.kind = GenErrKind.missingParam → paramValue params e.param = none) := by
  intro chain
  induction chain with
  | nil =>
    intro e h
    simp [renderChainSegs] at h
  | cons lvl rest ih =>
    intro e h
    rw [renderChainSegs] at h
    cases hr : renderSegs cr params lvl.name cn lvl.segs "" with
    | error e' =>
      rw [hr] at h
      simp only [Bind.bind, Except.bind] at h
      injection h with h'
      subst h'
      have h2 := renderSegs_error_inv cr params lvl.name cn lvl.segs "" e' hr
      exact ⟨h2.1, h2.2.2⟩
    | ok s =>
      rw [hr] at h
      simp only [Bind.bind, Except.bind] at h
      cases hrest : renderChainSegs cr params cn rest with
      | error e' =>
        rw [hrest] at h
        simp only [Functor.map, Except.map] at h
        injection h with h'
        subst h'
        exact ih _ hrest
      | ok t =>
        rw [hrest] at h
        exact absurd h (by simp [Functor.map, Except.map, pure, Except.pure])

theorem renderChainSegs_error_exists (cr : Bool) (params : List (String × String))
    (cn : List String) :
    ∀ (chain : List RouteLevel),
      (∃ lvl ∈ chain, ∃ s ∈ lvl.segs, mandatoryMissing params s = true) →
      ∃ e, renderChainSegs cr params cn chain = .error e := by
  intro chain
  induction chain with
  | nil =>
    intro hex
    simp at hex
  | cons lvl rest ih =>
    intro hex
    cases hr : renderSegs cr params lvl.name cn lvl.segs "" with
    | error e =>
      exact ⟨e, by rw [renderChainSegs, hr]; rfl⟩
    | ok s =>
      have hrest : ∃ lvl' ∈ rest, ∃ s ∈ lvl'.segs, mandatoryMissing params s = true := by
        rcases hex with ⟨lvl', hl, hoff⟩
        rcases List.mem_cons.mp hl with hl | hl
        · subst hl
          obtain ⟨e, he⟩ := renderSegs_error_exists cr params lvl'.name cn lvl'.segs hoff ""
          rw [he] at hr
          exact absurd hr (by simp)
        · exact ⟨lvl', hl, hoff⟩
      obtain ⟨e, he⟩ := ih hrest
      refine ⟨e, ?_⟩
      rw [renderChainSegs, hr]
      simp only [Bind.bind, Except.bind, he, Functor.map, Except.map, pure, Except.pure]



/-- C4 (amended): whenever any route level of the generation chain contains a
mandatory parameter with no (truthy) default that the params map does not
supply, `generatePath` never returns a path: it fails with a
`PathGenerationError` that reports the full ancestor chain of route names and,
when it is the missing-parameter error, names a parameter the params map does
not supply (the first offending parameter encountered — which is `p` itself
whenever no other parameter problem precedes it; see the counterexample for
why the error cannot always name a given `p`). -/
theorem claim_C4 (checkRequirements : Bool) (params : List (String × String))
    (queryString : String) (chain : List RouteLevel) (lvl : RouteLevel) (seg : Seg)
    (hlvl : lvl ∈ chain) (hseg : seg ∈ lvl.segs)
    (hoff : mandatoryMissing params seg = true) :
    ∃ e, generatePath checkRequirements params queryString chain = .error e ∧
      e.chain = routeChainNames chain ∧
      (e.kind = GenErrKind.missingParam → paramValue params e.param = none) := by
  obtain ⟨e, he⟩ := renderChainSegs_error_exists checkRequirements params
    (routeChainNames chain) chain ⟨lvl, hlvl, seg, hseg, hoff⟩
  have hinv := renderChainSegs_error_inv checkRequirements params
    (routeChainNames chain) chain e he
  refine ⟨e, ?_, hinv.1, hinv.2⟩
  rw [generatePath, he]
  rfl

/-- C4 counterexample: with two mandatory parameters `q` and `p` both missing,
generation fails naming `q` (the first encountered), not `p`; so the claim,
instantiated at `p`, is false as stated. -/
theorem claim_C4_counterexample :
    generatePath true [] ""
      [⟨"r", [.param "q" false none none, .param "p" false none none]⟩]
      = .error ⟨.missingParam, "q", "r", ["r"]⟩ ∧
    ("q" : String) ≠ "p" := by
  constructor
  · rfl
  · decide

/-- Witness for `claim_C4`: a lone missing mandatory parameter `id` makes
generation fail, with the error naming `id` and the chain `["users"]`. -/
theorem claim_C4_witness :
    exceptIsOk (generatePath true [] ""
      [⟨"users", [.literal "users", .param "id" false none none]⟩]) = false ∧
    generatePath true [] ""
      [⟨"users", [.literal "users", .param "id" false none none]⟩]
      = .error ⟨.missingParam, "id", "users", ["users"]⟩ := by
  constructor
  · obtain ⟨e, he, -, -⟩ := claim_C4 true [] ""
      [⟨"users", [.literal "users", .param "id" false none none]⟩]
      ⟨"users", [.literal "users", .param "id" false none none]⟩
      (.param "id" false none none)
      (by simp) (by simp) (by decide)
    rw [he]
    rfl
  · rfl



theorem renderSegs_congr_tail (cr : Bool) (params : List (String × String))
    (rn : String) (ch : List String) (s : Seg) {A B : List Seg}
    (hAB : ∀ memo, renderSegs cr params rn ch A memo = renderSegs cr params rn ch B memo) :
    ∀ memo, renderSegs cr params rn ch (s :: A) memo = renderSegs cr params rn ch (s :: B) memo := by
  intro memo
  cases s with
  | literal v =>
    simp only [renderSegs]
    exact hAB _
  | param p opt dflt re =>
    simp only [renderSegs]
    split
    · split
      · exact hAB _
      · rfl
    · split
      · split
        · rfl
        · exact hAB _
      · exact hAB _

theorem renderSegs_skip (cr : Bool) (params : List (String × String))
    (rn : String) (ch : List String) (p : String) (dflt : Option String)
    (re : Option (String → Bool)) (s2 : List Seg)
    (hpv : paramValue params p = none)
    (hd : match dflt with | some d => truthy d = false | none => True) :
    ∀ (s1 : List Seg) (memo : String),
      renderSegs cr params rn ch (s1 ++ Seg.param p true dflt re :: s2) memo
        = renderSegs cr params rn ch (s1 ++ s2) memo := by
  intro s1
  induction s1 with
  | nil =>
    intro memo
    simp only [List.nil_append, renderSegs, hpv]
    cases dflt with
    | none => simp
    | some d =>
      simp only [] at hd
      simp [hd]
  | cons s rest ih =>
    intro memo
    simp only [List.cons_append]
    exact renderSegs_congr_tail cr params rn ch s ih memo

theorem renderChainSegs_skip (cr : Bool) (params : List (String × String))
    (cn : List String) (rn : String) (s1 s2 : List Seg) (p : String)
    (dflt : Option String) (re : Option (String → Bool))
    (hpv : paramValue params p = none)
    (hd : match dflt with | some d => truthy d = false | none => True) :
    ∀ (C1 C2 : List RouteLevel),
      renderChainSegs cr params cn (C1 ++ ⟨rn, s1 ++ Seg.param p true dflt re :: s2⟩ :: C2)
        = renderChainSegs cr params cn (C1 ++ ⟨rn, s1 ++ s2⟩ :: C2) := by
  intro C1 C2
  induction C1 with
  | nil =>
    simp only [List.nil_append, renderChainSegs]
    rw [renderSegs_skip cr params rn cn p dflt re s2 hpv hd s1 ""]
  | cons lvl rest ih =>
    simp only [List.cons_append, renderChainSegs, List.append_eq]
    rw [ih]



def hasDoubleSlash : List Char → Bool
  | [] => false
  | [_] => false
  | a :: b :: rest => if a = '/' ∧ b = '/' then true else hasDoubleSlash (b :: rest)

theorem hasDoubleSlash_cons_false {c : Char} {l : List Char}
    (h : hasDoubleSlash (c :: l) = false) : hasDoubleSlash l = false := by
  cases l with
  | nil => rfl
  | cons b r =>
    rw [hasDoubleSlash] at h
    split at h
    · exact absurd h (by simp)
    · exact h

theorem hasDoubleSlash_cons_slash {l : List Char}
    (hh : l.head? ≠ some '/') (hds : hasDoubleSlash l = false) :
    hasDoubleSlash ('/' :: l) = false := by
  cases l with
  | nil => rfl
  | cons b r =>
    rw [hasDoubleSlash]
    rw [if_neg]
    · exact hds
    · intro hb
      apply hh
      rw [hb.2]
      rfl

theorem hasDoubleSlash_cons_nonslash {c : Char} {l : List Char}
    (hc : ¬ c = '/') (hds : hasDoubleSlash l = false) :
    hasDoubleSlash (c :: l) = false := by
  cases l with
  | nil => rfl
  | cons b r =>
    rw [hasDoubleSlash]
    rw [if_neg]
    · exact hds
    · intro hb
      exact hc hb.1

theorem collapseSlashes_true_head :
    ∀ l, (collapseSlashes true l).head? ≠ some '/' := by
  intro l
  induction l with
  | nil => simp [collapseSlashes]
  | cons c rest ih =>
    rw [collapseSlashes]
    by_cases hc : c = '/'
    · rw [if_pos hc, if_pos rfl]
      exact ih
    · rw [if_neg hc]
      simp only [List.head?_cons]
      intro hh
      exact hc (by injection hh)

theorem hasDoubleSlash_collapseSlashes :
    ∀ (l : List Char) (b : Bool), hasDoubleSlash (collapseSlashes b l) = false := by
  intro l
  induction l with
  | nil => intro b; rfl
  | cons c rest ih =>
    intro b
    rw [collapseSlashes]
    by_cases hc : c = '/'
    · rw [if_pos hc]
      cases b with
      | true =>
        rw [if_pos rfl]
        exact ih true
      | false =>
        rw [if_neg (by simp)]
        exact hasDoubleSlash_cons_slash (collapseSlashes_true_head rest) (ih true)
    · rw [if_neg hc]
      exact hasDoubleSlash_cons_nonslash hc (ih false)

theorem hasDoubleSlash_dropWhile {l : List Char}
    (h : hasDoubleSlash l = false) :
    hasDoubleSlash (l.dropWhile (fun c => c = '/')) = false := by
  induction l with
  | nil => exact h
  | cons c rest ih =>
    rw [List.dropWhile_cons]
    by_cases hc : c = '/'
    · simp only [hc]
      simp
      exact ih (hasDoubleSlash_cons_false h)
    · simp only [decide_eq_true_eq]
      rw [if_neg hc]
      exact h

theorem dropWhile_slash_head :
    ∀ l : List Char, (l.dropWhile (fun c => c = '/')).head? ≠ some '/' := by
  intro l
  induction l with
  | nil => simp
  | cons c rest ih =>
    rw [List.dropWhile_cons]
    by_cases hc : c = '/'
    · simp only [hc]
      simp
      exact fun hh => ih (by simp [hh])
    · simp only [decide_eq_true_eq]
      rw [if_neg hc]
      simp only [List.head?_cons]
      intro hh
      exact hc (by injection hh)

theorem trimTrailingSlashes_head_cases (c : Char) (l : List Char) :
    trimTrailingSlashes (c :: l) = [] ∨ ∃ r, trimTrailingSlashes (c :: l) = c :: r := by
  rw [trimTrailingSlashes]
  cases h : trimTrailingSlashes l with
  | nil =>
    by_cases hc : c = '/'
    · left
      rw [if_pos hc]
    · right
      exact ⟨[], by rw [if_neg hc]⟩
  | cons d r => exact Or.inr ⟨d :: r, rfl⟩

theorem hasDoubleSlash_trimTrailingSlashes :
    ∀ l : List Char, hasDoubleSlash l = false →
      hasDoubleSlash (trimTrailingSlashes l) = false := by
  intro l
  induction l with
  | nil => intro h; exact h
  | cons c rest ih =>
    intro h
    rw [trimTrailingSlashes]
    cases hr : trimTrailingSlashes rest with
    | nil =>
      by_cases hc : c = '/'
      · rw [if_pos hc]
        rfl
      · rw [if_neg hc]
        rfl
    | cons d r =>
      have hds_rest : hasDoubleSlash (d :: r) = false := by
        rw [← hr]
        exact ih (hasDoubleSlash_cons_false h)
      cases rest with
      | nil => rw [trimTrailingSlashes] at hr; exact absurd hr (by simp)
      | cons e es =>
        rcases trimTrailingSlashes_head_cases e es with h0 | ⟨r', hr'⟩
        · rw [h0] at hr
          exact absurd hr (by simp)
        · rw [hr'] at hr
          injection hr with h1 h2
          subst h1
          rw [hasDoubleSlash]
          rw [if_neg]
          · exact hds_rest
          · intro hb
            rw [hasDoubleSlash, if_pos hb] at h
            exact absurd h (by simp)

theorem trimTrailingSlashes_head :
    ∀ l : List Char, (trimTrailingSlashes l).head? = l.head? ∨ trimTrailingSlashes l = [] := by
  intro l
  cases l with
  | nil => exact Or.inr rfl
  | cons c rest =>
    rcases trimTrailingSlashes_head_cases c rest with h | ⟨r, h⟩
    · exact Or.inr h
    · left
      rw [h]
      rfl

theorem hasDoubleSlash_trimSlashes_wellformed (j : List Char) :
    ('/' :: trimSlashes (collapseSlashes false j)).head? = some '/' ∧
    hasDoubleSlash ('/' :: trimSlashes (collapseSlashes false j)) = false := by
  refine ⟨rfl, ?_⟩
  have hds0 := hasDoubleSlash_collapseSlashes j false
  have hds1 := hasDoubleSlash_dropWhile hds0
  have hds2 := hasDoubleSlash_trimTrailingSlashes _ hds1
  have hh1 := dropWhile_slash_head (collapseSlashes false j)
  have hh2 : (trimSlashes (collapseSlashes false j)).head? ≠ some '/' := by
    rw [trimSlashes]
    rcases trimTrailingSlashes_head (trimLeadingSlashes (collapseSlashes false j)) with h | h
    · rw [h]
      exact hh1
    · rw [h]
      simp
  exact hasDoubleSlash_cons_slash hh2 hds2

theorem generatePath_ok_wellformed (cr : Bool) (params : List (String × String))
    (chain : List RouteLevel) (s : String)
    (h : generatePath cr params "" chain = .ok s) :
    s.data.head? = some '/' ∧ hasDoubleSlash s.data = false := by
  rw [generatePath] at h
  cases hr : renderChainSegs cr params (routeChainNames chain) chain with
  | error e =>
    rw [hr] at h
    exact absurd h (by simp [Bind.bind, Except.bind])
  | ok segs =>
    rw [hr] at h
    simp only [Bind.bind, Except.bind, pure, Except.pure, if_pos rfl, if_true,
      String.append_empty] at h
    injection h with h'
    subst h'
    have hw := hasDoubleSlash_trimSlashes_wellformed (String.join segs).data
    constructor
    · show (("/" : String) ++ String.mk (trimSlashes (collapseSlashes false (String.join segs).data))).data.head? = some '/'
      rw [String.data_append]
      exact hw.1
    · show hasDoubleSlash (("/" : String) ++ String.mk (trimSlashes (collapseSlashes false (String.join segs).data))).data = false
      rw [String.data_append]
      exact hw.2



/-- C5: for every route chain containing an optional parameter `p` with no
(truthy) default, generating a path without supplying `p` behaves exactly as
if `p`'s segment were absent from the pattern (the segment is omitted, in
success and failure alike), and every successfully generated path (with empty
query string) is a well-formed absolute path: it begins with a slash and
contains no doubled slashes. -/
theorem claim_C5 (cr : Bool) (params : List (String × String)) (qs : String)
    (C1 C2 : List RouteLevel) (rn : String) (s1 s2 : List Seg) (p : String)
    (dflt : Option String) (re : Option (String → Bool))
    (hpv : paramValue params p = none)
    (hd : match dflt with | some d => truthy d = false | none => True) :
    generatePath cr params qs (C1 ++ ⟨rn, s1 ++ Seg.param p true dflt re :: s2⟩ :: C2)
      = generatePath cr params qs (C1 ++ ⟨rn, s1 ++ s2⟩ :: C2) ∧
    (∀ s, generatePath cr params ""
        (C1 ++ ⟨rn, s1 ++ Seg.param p true dflt re :: s2⟩ :: C2) = .ok s →
      s.data.head? = some '/' ∧ hasDoubleSlash s.data = false) := by
  constructor
  · have hnames : routeChainNames (C1 ++ ⟨rn, s1 ++ Seg.param p true dflt re :: s2⟩ :: C2)
        = routeChainNames (C1 ++ ⟨rn, s1 ++ s2⟩ :: C2) := by
      simp [routeChainNames]
    rw [generatePath, generatePath, hnames,
      renderChainSegs_skip cr params _ rn s1 s2 p dflt re hpv hd C1 C2]
  · intro s hs
    exact generatePath_ok_wellformed cr params _ s hs

/-- Witness for `claim_C5`: omitting the unsupplied optional `fmt` yields the
same generation as the pattern without it, and `/items` is well-formed. -/
theorem claim_C5_witness :
    generatePath true [] "" [⟨"item", [.literal "items", .param "fmt" true none none]⟩]
      = generatePath true [] "" [⟨"item", [.literal "items"]⟩] ∧
    ("/items".data.head? = some '/' ∧ hasDoubleSlash "/items".data = false) := by
  have h := claim_C5 true [] "" [] [] "item" [.literal "items"] [] "fmt" none none
    (by decide) trivial
  exact ⟨by simpa using h.1, h.2 "/items" (by decide)⟩




/-!
Route-node lifecycle state (src/lib/route/base.js, second variant:
`BaseRoute#use` lines 927-942 and `BaseRoute#addSubRoutes` lines 1018-1025),
and the action-invocation boundary (src/unnamed/part_003, first variant,
`ActionRoute#_invokeAction` lines 268-296).
-/

/-- The mutable node state relevant to claim C6: name, mounted and actionable
flags, the middleware list (mount path and handler), and the sub-route list. -/
structure BaseRouteState where
  name : String
  mounted : Bool
  actionable : Bool
  middleware : List (Option String × String)
  subRoutes : List String
  deriving DecidableEq, Repr

/-- Failure modes of the node mutation operations. -/
inductive RouteOpErr where
  | alreadyMounted (name : String)
  | actionableParent (name : String)
  deriving DecidableEq, Repr

/-- `BaseRoute#use` (base.js lines 927-942): adding middleware fails once the
route is mounted, otherwise the middleware entry is pushed. -/
def BaseRouteState.use (r : BaseRouteState) (mountPath : Option String) (fn : String) :
    Except RouteOpErr BaseRouteState :=
  if r.mounted then .error (.alreadyMounted r.name)
  else .ok { r with middleware := r.middleware ++ [(mountPath, fn)] }

/-- `BaseRoute#addSubRoutes` (base.js lines 1018-1025): fails only when the
route is actionable — the mounted flag is NOT checked. -/
def BaseRouteState.addSubRoutes (r : BaseRouteState) (subs : List String) (unshift : Bool) :
    Except RouteOpErr BaseRouteState :=
  if r.actionable then .error (.actionableParent r.name)
  else .ok { r with subRoutes := if unshift then subs ++ r.subRoutes else r.subRoutes ++ subs }

/-- C6 (amended): once a route node is mounted, `use` fails with a state
error and the middleware list is unchanged (`use` succeeds exactly on an
unmounted node, appending the entry).  The claim's stronger clause — that the
mounted flag forbids ALL structural mutation through public operations — does
not hold: see the counterexample (`addSubRoutes` succeeds on a mounted
node). -/
theorem claim_C6 (r : BaseRouteState) (mountPath : Option String) (fn : String) :
    (r.mounted = true → r.use mountPath fn = .error (.alreadyMounted r.name)) ∧
    (∀ r', r.use mountPath fn = .ok r' → r.mounted = false ∧
      r' = { r with middleware := r.middleware ++ [(mountPath, fn)] }) := by
  constructor
  · intro hm
    simp [BaseRouteState.use, hm]
  · intro r' h
    rw [BaseRouteState.use] at h
    split at h
    · exact absurd h (by simp)
    · rename_i hm
      injection h with h'
      exact ⟨by simpa using hm, h'.symm⟩

/-- A mounted, non-actionable segment node. -/
def mountedSegment : BaseRouteState :=
  { name := "s", mounted := true, actionable := false, middleware := [], subRoutes := [] }

/-- C6 counterexample: `addSubRoutes` on a mounted segment succeeds and
changes its sub-route list — a structural mutation of a mounted node through a
public operation. -/
theorem claim_C6_counterexample :
    mountedSegment.mounted = true ∧
    mountedSegment.addSubRoutes ["child"] false
      = .ok { mountedSegment with subRoutes := ["child"] } ∧
    ({ mountedSegment with subRoutes := ["child"] } : BaseRouteState) ≠ mountedSegment := by
  decide

/-- Witness for `claim_C6`: `use` on a mounted node fails. -/
theorem claim_C6_witness :
    mountedSegment.use none "mw" = .error (.alreadyMounted "s") :=
  (claim_C6 mountedSegment none "mw").1 rfl

/-- Outcome of the deferred invocation turn scheduled by `_invokeAction`:
the handler returned normally, the continuation was called with an error by
the catch block, or (never produced) an exception escaped the turn. -/
inductive TurnResult where
  | handlerReturned
  | nextCalled (e : String)
  | uncaught (e : String)
  deriving DecidableEq, Repr

/-- The synchronous phase of `_invokeAction`: either `next(err)` was called
synchronously (a parameter-handling error), or a deferred turn was scheduled
via `setImmediate` carrying the handler still un-invoked. -/
inductive InvokeActionResult (ρ : Type) where
  | nextError (e : String)
  | scheduled (handler : ρ → Except String Unit) (req : ρ)

/-- `ActionRoute#_invokeAction` (part_003 lines 268-296): when the route
handles request params on the action, a params error goes to `next`
synchronously and otherwise the invocation thunk is scheduled; when params are
handled by the router middleware stack, the thunk is scheduled directly.  The
`emit('request')` and route marking of lines 271-273 do not involve the
handler and are not modeled. -/
def invokeAction {ρ : Type} (handleRequestParamsOnAction : Bool)
    (handleParams : Except String Unit) (fn : ρ → Except String Unit) (req : ρ) :
    InvokeActionResult ρ :=
  if handleRequestParamsOnAction then
    match handleParams with
    | .error e => .nextError e
    | .ok _ => .scheduled fn req
  else .scheduled fn req

/-- Running the scheduled turn (the `setImmediate` callback, lines 275-283):
`try { fn(req, res, next) } catch (e) { next(e) }` — a synchronous throw from
the handler becomes a `next` call with that error. -/
def runScheduledTurn {ρ : Type} : InvokeActionResult ρ → Option TurnResult
  | .nextError _ => none
  | .scheduled fn req =>
    some (match fn req with
      | .ok _ => .handlerReturned
      | .error e => .nextCalled e)

/-- What the caller observes synchronously from `_invokeAction`. -/
def syncView {ρ : Type} : InvokeActionResult ρ → Option String
  | .nextError e => some e
  | .scheduled _ _ => none

/-- C7: the user handler is never invoked in the synchronous phase of
`_invokeAction` — the synchronous observation is the same for every handler,
and the result is either the scheduled (un-invoked) thunk or a synchronous
params error; and when the handler throws synchronously in its turn, the
exception is caught at the invocation boundary and passed to the continuation,
never propagating (no turn ever results in an uncaught exception). -/
theorem claim_C7 {ρ : Type} (flag : Bool) (hp : Except String Unit)
    (fn fn' : ρ → Except String Unit) (req : ρ) :
    syncView (invokeAction flag hp fn req) = syncView (invokeAction flag hp fn' req) ∧
    (invokeAction flag hp fn req = InvokeActionResult.scheduled fn req ∨
      ∃ e, hp = .error e ∧ flag = true ∧
        invokeAction flag hp fn req = InvokeActionResult.nextError e) ∧
    (∀ e, fn req = .error e →
      runScheduledTurn (invokeAction flag hp fn req) = none ∨
      runScheduledTurn (invokeAction flag hp fn req) = some (TurnResult.nextCalled e)) ∧
    (∀ tr, runScheduledTurn (invokeAction flag hp fn req) = some tr →
      ∀ e, tr ≠ TurnResult.uncaught e) := by
  refine ⟨?_, ?_, ?_, ?_⟩
  · cases flag with
    | false => rfl
    | true =>
      cases hp with
      | error e => rfl
      | ok u => rfl
  · cases flag with
    | false => exact Or.inl rfl
    | true =>
      cases hp with
      | error e => exact Or.inr ⟨e, rfl, rfl, rfl⟩
      | ok u => exact Or.inl rfl
  · intro e he
    cases flag with
    | false =>
      right
      simp [invokeAction, runScheduledTurn, he]
    | true =>
      cases hp with
      | error e' => left; rfl
      | ok u =>
        right
        simp [invokeAction, runScheduledTurn, he]
  · intro tr htr e
    cases flag with
    | false =>
      simp [invokeAction, runScheduledTurn] at htr
      subst htr
      cases hfr : fn req with
      | ok u => simp [hfr]
      | error e' => simp [hfr]
    | true =>
      cases hp with
      | error e' => simp [invokeAction, runScheduledTurn] at htr
      | ok u =>
        simp [invokeAction, runScheduledTurn] at htr
        subst htr
        cases hfr : fn req with
        | ok u' => simp [hfr]
        | error e' => simp [hfr]

/-- Witness for `claim_C7`: a throwing handler yields a `next` call with the
thrown error in the scheduled turn. -/
theorem claim_C7_witness :
    runScheduledTurn (invokeAction true (Except.ok ())
      (fun _ : Unit => Except.error "boom") ()) = some (TurnResult.nextCalled "boom") := by
  rcases (claim_C7 true (Except.ok ()) (fun _ : Unit => Except.error "boom")
      (fun _ => Except.ok ()) ()).2.2.1 "boom" rfl with h | h
  · exact absurd h (by decide)
  · exact h


end Routicorn

namespace Routicorn

/-- A route as the router registry sees it: the JavaScript object identity is
modeled by a numeric id, alongside the route name. -/
structure RegRoute where
  id : Nat
  name : String
  deriving DecidableEq, Repr

/-- The `Routicorn` router's route registry (`this._routes`, keyed by name);
`selfId` is the id of the router instance itself, so the `route === this`
check of `registerRoute` is expressible. -/
structure Registry where
  selfId : Nat
  routes : List RegRoute
  deriving DecidableEq, Repr

/-- Lookup `this._routes[name]` (routicorn.js line 662). -/
def findRouteByName (reg : Registry) (n : String) : Option RegRoute :=
  reg.routes.find? (fun r => r.name = n)

/-- `Routicorn#hasRoute` (routicorn.js lines 719-728): `!!this._routes[route]`. -/
def hasRoute (reg : Registry) (n : String) : Bool := (findRouteByName reg n).isSome

/-- The configuration-time failures: the factory's 'Route name is ambiguous'
check, `registerRoute`'s 'A route with the same name already exists', and the
factory's 'Invalid route configuration'. -/
inductive CfgErr where
  | duplicateName (name : String)
  | ambiguousName (name : String)
  | invalidConfig (name : String)
  deriving DecidableEq, Repr

/-- `Routicorn#registerRoute` (routicorn.js lines 653-673).  Registering the
router itself or an already-registered identical instance is a silent no-op;
a different instance under a registered name throws; otherwise the route is
added.  The returned Bool records whether the 'route registered' event was
emitted. -/
def registerRoute (reg : Registry) (r : RegRoute) : Except CfgErr (Registry × Bool) :=
  if r.id = reg.selfId then .ok (reg, false)
  else
    match findRouteByName reg r.name with
    | some existing =>
      if existing = r then .ok (reg, false)
      else .error (.duplicateName r.name)
    | none => .ok ({ reg with routes := reg.routes ++ [r] }, true)

/-- `_.trim(name)` (factory.js line 87), as list-of-characters operations so
that it evaluates inside the kernel. -/
def trimName (s : String) : String :=
  ⟨((s.data.dropWhile Char.isWhitespace).reverse.dropWhile Char.isWhitespace).reverse⟩

/-- A route config object as the factory consumes it: a list of named entries,
each with a pattern, an optional controller, optional nested `routes` configs
and an optional included `resource` file whose parsed content again is a config
list (factory.js lines 111-172). -/
inductive Configs where
  | nil
  | cons (name pattern : String) (controller : Option String)
      (hasRoutes : Bool) (routes : Configs)
      (hasResource : Bool) (resource : Configs)
      (rest : Configs)

/-- Loader state: the router registry plus the next fresh object id, which
models allocation of new route instances. -/
structure LoadState where
  reg : Registry
  fresh : Nat
  deriving DecidableEq, Repr

/-- `RouteFactory#createRoutesFromConfigs` together with `_createRoute`
(factory.js lines 79-99 and 111-172), restricted to its effect on the route
registry.  Per entry: the trimmed name is checked against the registry, an
invalid config (no controller, routes or resource) throws, a segment instance
is allocated when there are sub-routes, the action route (when a controller is
given) is created and registered before the sub-routes are loaded, an included
resource contributes further entries, and the segment route is registered after
its sub-routes. -/
def createRoutesFromConfigs (st : LoadState) : Configs → Except CfgErr LoadState
  | .nil => .ok st
  | .cons name _pattern controller hasRoutes routes hasResource resource rest => do
    let name := trimName name
    if hasRoute st.reg name then .error (.ambiguousName name)
    else if controller.isNone && !hasRoutes && !hasResource then
      .error (.invalidConfig name)
    else
      let hasSubRoutes := hasRoutes || hasResource
      let segId := st.fresh
      let st1 : LoadState := if hasSubRoutes then { st with fresh := st.fresh + 1 } else st
      let st2 ← match controller with
        | some _ => do
          let actId := st1.fresh
          let rr ← registerRoute st1.reg ⟨actId, name⟩
          pure { reg := rr.1, fresh := st1.fresh + 1 }
        | none => pure st1
      let st3 ← if hasRoutes then createRoutesFromConfigs st2 routes else pure st2
      let st4 ← if hasResource then createRoutesFromConfigs st3 resource else pure st3
      let st5 ← if hasSubRoutes then do
          let rr ← registerRoute st4.reg ⟨segId, name⟩
          pure ({ reg := rr.1, fresh := st4.fresh } : LoadState)
        else pure st4
      createRoutesFromConfigs st5 rest

/-- All trimmed route names a config tree tries to register, in registration
order of the name checks. -/
def Configs.allNames : Configs → List String
  | .nil => []
  | .cons name _ _ hasRoutes routes hasResource resource rest =>
    trimName name
      :: ((if hasRoutes then routes.allNames else [])
          ++ (if hasResource then resource.allNames else [])
          ++ rest.allNames)



end Routicorn

namespace Routicorn

theorem hasRoute_iff (reg : Registry) (n : String) :
    hasRoute reg n = true ↔ ∃ r ∈ reg.routes, r.name = n := by
  simp [hasRoute, findRouteByName, List.find?_isSome]

theorem hasRoute_mono {A B : Registry} (hsub : ∀ r ∈ A.routes, r ∈ B.routes) {n : String}
    (h : hasRoute A n = true) : hasRoute B n = true := by
  rw [hasRoute_iff] at h ⊢
  obtain ⟨r, hr, hn⟩ := h
  exact ⟨r, hsub r hr, hn⟩

theorem hasRoute_of_mem {reg : Registry} {r : RegRoute} (h : r ∈ reg.routes) :
    hasRoute reg r.name = true :=
  (hasRoute_iff reg r.name).2 ⟨r, h, rfl⟩

theorem not_mem_names_of_hasRoute_false {reg : Registry} {n : String}
    (h : hasRoute reg n = false) : n ∉ reg.routes.map RegRoute.name := by
  intro hmem
  obtain ⟨r, hr, hn⟩ := List.mem_map.1 hmem
  have := hasRoute_of_mem hr
  rw [hn, h] at this
  exact Bool.false_ne_true this

theorem registerRoute_ok_inv {reg : Registry} {r : RegRoute} {reg' : Registry} {ev : Bool}
    (hid : r.id ≠ reg.selfId)
    (h : registerRoute reg r = .ok (reg', ev)) :
    (findRouteByName reg r.name = some r ∧ reg' = reg ∧ ev = false) ∨
    (findRouteByName reg r.name = none ∧
      reg' = { reg with routes := reg.routes ++ [r] } ∧ ev = true) := by
  unfold registerRoute at h
  rw [if_neg hid] at h
  split at h
  next existing hf =>
    split at h
    next he =>
      subst he
      simp only [Except.ok.injEq, Prod.mk.injEq] at h
      exact Or.inl ⟨hf, h.1.symm, h.2.symm⟩
    next he => exact absurd h (by simp)
  next hf =>
    simp only [Except.ok.injEq, Prod.mk.injEq] at h
    exact Or.inr ⟨hf, h.1.symm, h.2.symm⟩

theorem registerRoute_fresh {reg : Registry} {i : Nat} {n : String} {reg' : Registry} {ev : Bool}
    (hid : i ≠ reg.selfId) (hnotin : ∀ r ∈ reg.routes, r.id ≠ i)
    (h : registerRoute reg ⟨i, n⟩ = .ok (reg', ev)) :
    reg' = { reg with routes := reg.routes ++ [⟨i, n⟩] } ∧ hasRoute reg n = false := by
  rcases registerRoute_ok_inv hid h with ⟨hf, _, _⟩ | ⟨hf, h1, _⟩
  · exact absurd rfl (hnotin _ (List.mem_of_find?_eq_some hf))
  · refine ⟨h1, ?_⟩
    simp only [hasRoute, hf, Option.isSome_none]

end Routicorn

namespace Routicorn

/-- Invariant relating the router state before and after a loader step:
the router identity is unchanged, fresh ids only grow, registered routes
are never removed, every newly appearing route carries a fresh id, and
name-uniqueness of the registry is preserved. -/
def StepInv (lo : Nat) (st st' : LoadState) : Prop :=
  st'.reg.selfId = st.reg.selfId ∧
  st.fresh ≤ st'.fresh ∧
  (∀ r ∈ st.reg.routes, r ∈ st'.reg.routes) ∧
  (∀ r ∈ st'.reg.routes, r ∈ st.reg.routes ∨ lo ≤ r.id) ∧
  ((st.reg.routes.map RegRoute.name).Nodup → (st'.reg.routes.map RegRoute.name).Nodup)

theorem stepInv_refl (lo : Nat) (st : LoadState) : StepInv lo st st :=
  ⟨Eq.refl _, Nat.le_refl _, fun _ h => h, fun _ h => Or.inl h, id⟩

theorem StepInv.trans {lo : Nat} {a b c : LoadState} (h1 : StepInv lo a b)
    (h2 : StepInv lo b c) : StepInv lo a c := by
  obtain ⟨s1, f1, m1, n1, u1⟩ := h1
  obtain ⟨s2, f2, m2, n2, u2⟩ := h2
  refine ⟨s2.trans s1, Nat.le_trans f1 f2, fun r hr => m2 r (m1 r hr), ?_, fun h => u2 (u1 h)⟩
  intro r hr
  rcases n2 r hr with hb | hb
  · rcases n1 r hb with ha | ha
    · exact Or.inl ha
    · exact Or.inr ha
  · exact Or.inr hb

theorem StepInv.mono {lo lo' : Nat} {a b : LoadState} (hle : lo' ≤ lo)
    (h : StepInv lo a b) : StepInv lo' a b := by
  obtain ⟨s1, f1, m1, n1, u1⟩ := h
  refine ⟨s1, f1, m1, ?_, u1⟩
  intro r hr
  rcases n1 r hr with ha | ha
  · exact Or.inl ha
  · exact Or.inr (Nat.le_trans hle ha)

theorem StepInv.hasRoute_true {lo : Nat} {a b : LoadState} (h : StepInv lo a b) {n : String}
    (hn : hasRoute a.reg n = true) : hasRoute b.reg n = true :=
  hasRoute_mono h.2.2.1 hn

theorem StepInv.hasRoute_false {lo : Nat} {a b : LoadState} (h : StepInv lo a b) {n : String}
    (hn : hasRoute b.reg n = false) : hasRoute a.reg n = false := by
  cases hv : hasRoute a.reg n with
  | false => rfl
  | true => rw [h.hasRoute_true hv] at hn; exact absurd hn (by simp)

/-- C10: re-registering the very same route instance is a silent no-op —
same registry, no error, and the event flag is false so no second
'route registered' event is emitted — while a different instance under an
already-registered name fails with the duplicate-name error, and a fresh
name is appended with the event flag true. -/
theorem claim_C10 (reg : Registry) (r : RegRoute) (hid : r.id ≠ reg.selfId) :
    (findRouteByName reg r.name = some r →
      registerRoute reg r = .ok (reg, false)) ∧
    (∀ existing, findRouteByName reg r.name = some existing → existing ≠ r →
      registerRoute reg r = .error (.duplicateName r.name)) ∧
    (findRouteByName reg r.name = none →
      registerRoute reg r = .ok ({ reg with routes := reg.routes ++ [r] }, true)) := by
  refine ⟨fun hf => ?_, fun existing hf hne => ?_, fun hf => ?_⟩
  · unfold registerRoute
    rw [if_neg hid, hf]
    simp
  · unfold registerRoute
    rw [if_neg hid, hf]
    simp [hne]
  · unfold registerRoute
    rw [if_neg hid, hf]

theorem claim_C10_witness :
    registerRoute ⟨0, [⟨1, "a"⟩]⟩ ⟨1, "a"⟩ = .ok (⟨0, [⟨1, "a"⟩]⟩, false) ∧
    registerRoute ⟨0, [⟨1, "a"⟩]⟩ ⟨2, "a"⟩ = .error (.duplicateName "a") ∧
    registerRoute ⟨0, [⟨1, "a"⟩]⟩ ⟨2, "b"⟩ = .ok (⟨0, [⟨1, "a"⟩, ⟨2, "b"⟩]⟩, true) :=
  ⟨(claim_C10 ⟨0, [⟨1, "a"⟩]⟩ ⟨1, "a"⟩ (by decide)).1 (by decide),
   (claim_C10 ⟨0, [⟨1, "a"⟩]⟩ ⟨2, "a"⟩ (by decide)).2.1 ⟨1, "a"⟩ (by decide) (by decide),
   (claim_C10 ⟨0, [⟨1, "a"⟩]⟩ ⟨2, "b"⟩ (by decide)).2.2 (by decide)⟩

end Routicorn

namespace Routicorn

/-- Object-identity discipline of the loader: the router's own id and the
ids of all registered routes are below the next fresh id. -/
def FreshOk (st : LoadState) : Prop :=
  st.reg.selfId < st.fresh ∧ ∀ r ∈ st.reg.routes, r.id < st.fresh

theorem exceptBind_ok {α β : Type} {x : Except CfgErr α} {f : α → Except CfgErr β} {b : β}
    (h : Except.bind x f = .ok b) : ∃ a, x = .ok a ∧ f a = .ok b := by
  cases x with
  | error e => exact absurd h (by simp [Except.bind])
  | ok a => exact ⟨a, rfl, h⟩

theorem pureCfg_ok {α : Type} {a b : α} (h : (pure a : Except CfgErr α) = .ok b) : a = b := by
  simpa [pure, Except.pure] using h

theorem names_nodup_append {reg : Registry} {i : Nat} {n : String}
    (hfalse : hasRoute reg n = false) (h : (reg.routes.map RegRoute.name).Nodup) :
    (((reg.routes ++ [⟨i, n⟩]) : List RegRoute).map RegRoute.name).Nodup := by
  rw [List.map_append, List.nodup_append]
  refine ⟨h, List.nodup_singleton _, ?_⟩
  intro a ha hb
  simp only [List.map_singleton, List.mem_singleton] at hb
  subst hb
  exact not_mem_names_of_hasRoute_false hfalse ha

end Routicorn

namespace Routicorn

theorem registerRoute_step {lo : Nat} {st : LoadState} {i f1 : Nat} {n : String}
    {rr : Registry × Bool}
    (hfr : FreshOk st) (hlo : lo ≤ i) (hnotin : ∀ r ∈ st.reg.routes, r.id ≠ i)
    (hself : i ≠ st.reg.selfId) (hfle : st.fresh ≤ f1) (hif : i < f1)
    (hreg : registerRoute st.reg ⟨i, n⟩ = .ok rr) :
    FreshOk ⟨rr.1, f1⟩ ∧ StepInv lo st ⟨rr.1, f1⟩ ∧
    hasRoute rr.1 n = true ∧ hasRoute st.reg n = false := by
  obtain ⟨hr1, hfalse⟩ := registerRoute_fresh hself hnotin hreg
  rw [hr1]
  refine ⟨⟨Nat.lt_of_lt_of_le hfr.1 hfle, ?_⟩, ⟨Eq.refl _, hfle, ?_, ?_, ?_⟩, ?_, hfalse⟩
  · intro r hr
    rcases List.mem_append.1 hr with hr | hr
    · exact Nat.lt_of_lt_of_le (hfr.2 r hr) hfle
    · rw [List.mem_singleton.1 hr]
      exact hif
  · intro r hr
    exact List.mem_append_left _ hr
  · intro r hr
    rcases List.mem_append.1 hr with hr | hr
    · exact Or.inl hr
    · rw [List.mem_singleton.1 hr]
      exact Or.inr hlo
  · exact names_nodup_append hfalse
  · rw [hasRoute_iff]
    exact ⟨⟨i, n⟩, List.mem_append_right _ (List.mem_singleton.2 (Eq.refl _)), Eq.refl _⟩

/-- Full invariant established by a successful loader run over a config list. -/
def LoadInv (st st' : LoadState) (names : List String) : Prop :=
  FreshOk st' ∧ StepInv st.fresh st st' ∧
  (∀ n ∈ names, hasRoute st'.reg n = true) ∧
  (∀ n ∈ names, hasRoute st.reg n = false) ∧
  names.Nodup

theorem load_inv_if {cfgs : Configs}
    (ih : ∀ st st', FreshOk st → createRoutesFromConfigs st cfgs = .ok st' →
      LoadInv st st' cfgs.allNames)
    (b : Bool) (st st' : LoadState) (hfr : FreshOk st)
    (h : (if b = true then createRoutesFromConfigs st cfgs else pure st) = .ok st') :
    LoadInv st st' (if b = true then cfgs.allNames else []) := by
  cases b with
  | false =>
    simp only [Bool.false_eq_true, if_false] at h ⊢
    have he : st = st' := pureCfg_ok h
    subst he
    exact ⟨hfr, stepInv_refl _ _, by simp, by simp, List.nodup_nil⟩
  | true =>
    simp only [if_pos] at h ⊢
    exact ih st st' hfr h

end Routicorn

namespace Routicorn

theorem ite_bind {α β : Type} (b : Bool) (x y : Except CfgErr α) (k : α → Except CfgErr β) :
    (if b = true then Except.bind x k else Except.bind y k) =
      Except.bind (if b = true then x else y) k := by
  cases b <;> simp

theorem load_inv (cfgs : Configs) : ∀ st st', FreshOk st →
    createRoutesFromConfigs st cfgs = .ok st' → LoadInv st st' cfgs.allNames := by
  induction cfgs with
  | nil =>
    intro st st' hfr h
    simp only [createRoutesFromConfigs, Except.ok.injEq] at h
    subst h
    exact ⟨hfr, stepInv_refl _ _, by simp [Configs.allNames], by simp [Configs.allNames],
      by simp [Configs.allNames]⟩
  | cons name pat controller hasRoutes routes hasResource resource rest ihR ihRes ihRest =>
    intro st st' hfr h
    simp only [createRoutesFromConfigs, Bind.bind] at h
    split at h
    next hdup0 => exact absurd h (by simp)
    next hdup0 =>
    split at h
    next hinv => exact absurd h (by simp)
    next hinv =>
    cases hOr : hasRoutes || hasResource with
    | false =>
      obtain ⟨hR, hRes⟩ : hasRoutes = false ∧ hasResource = false := by
        cases hasRoutes <;> cases hasResource <;> simp_all
      subst hR
      subst hRes
      cases controller with
      | none => exact absurd (by simp) hinv
      | some c =>
        simp only [Bool.or_self, Bool.false_eq_true, if_false, Bool.true_eq_false] at h
        obtain ⟨rr, hreg, h⟩ := exceptBind_ok h
        obtain ⟨st2, h2, h⟩ := exceptBind_ok h
        have hst2 := pureCfg_ok h2
        subst hst2
        obtain ⟨st3, h3, h⟩ := exceptBind_ok h
        have hst3 := pureCfg_ok h3
        subst hst3
        obtain ⟨st4, h4, h⟩ := exceptBind_ok h
        have hst4 := pureCfg_ok h4
        subst hst4
        obtain ⟨st5, h5, h⟩ := exceptBind_ok h
        have hst5 := pureCfg_ok h5
        subst hst5
        have hdupf : hasRoute st.reg (trimName name) = false := by
          simpa using hdup0
        obtain ⟨hfr2, hstep2, htrue2, hfalse2⟩ := registerRoute_step hfr (Nat.le_refl _)
          (fun r hr => Nat.ne_of_lt (hfr.2 r hr)) (ne_of_gt hfr.1) (Nat.le_succ _)
          (Nat.lt_succ_self _) hreg
        obtain ⟨hfrR, hstepR, hTrueR, hFalseR, hNodupR⟩ := ihRest _ _ hfr2 h
        simp only [Configs.allNames, Bool.false_eq_true, if_false, List.nil_append]
        refine ⟨hfrR, hstep2.trans (hstepR.mono (Nat.le_succ _)), ?_, ?_, ?_⟩
        · intro n hn
          rcases List.mem_cons.1 hn with hn | hn
          · subst hn
            exact hstepR.hasRoute_true htrue2
          · exact hTrueR n hn
        · intro n hn
          rcases List.mem_cons.1 hn with hn | hn
          · subst hn
            exact hdupf
          · exact hstep2.hasRoute_false (hFalseR n hn)
        · refine List.nodup_cons.2 ⟨?_, hNodupR⟩
          intro hm
          have hf := hFalseR _ hm
          rw [htrue2] at hf
          exact absurd hf (by simp)
    | true =>
      simp only [hOr, eq_self_iff_true, if_true] at h
      simp only [ite_bind] at h
      have hfr1 : FreshOk (⟨st.reg, st.fresh + 1⟩ : LoadState) :=
        ⟨Nat.lt_succ_of_lt hfr.1, fun r hr => Nat.lt_succ_of_lt (hfr.2 r hr)⟩
      cases controller with
      | some c =>
        obtain ⟨rr, hreg, h⟩ := exceptBind_ok h
        obtain ⟨st2, h2, h⟩ := exceptBind_ok h
        have hst2 := pureCfg_ok h2
        subst hst2
        obtain ⟨hfr2, hstep2, htrue2, hfalse2⟩ :=
          registerRoute_step hfr1 (Nat.le_refl _)
            (fun r hr => Nat.ne_of_lt (Nat.lt_succ_of_lt (hfr.2 r hr)))
            (ne_of_gt (Nat.lt_succ_of_lt hfr.1)) (Nat.le_succ _)
            (Nat.lt_succ_self _) hreg
        obtain ⟨st3, h3, h⟩ := exceptBind_ok h
        obtain ⟨hfr3, hstep3, hTrue3, hFalse3, hNodup3⟩ := load_inv_if ihR hasRoutes _ _ hfr2 h3
        obtain ⟨st4, h4, h⟩ := exceptBind_ok h
        obtain ⟨hfr4, hstep4, hTrue4, hFalse4, hNodup4⟩ := load_inv_if ihRes hasResource _ _ hfr3 h4
        obtain ⟨rr2, hreg2, h⟩ := exceptBind_ok h
        have inner : StepInv (st.fresh + 1) ⟨st.reg, st.fresh + 1⟩ st4 :=
          (hstep2.trans (hstep3.mono (Nat.le_succ _))).trans
            (hstep4.mono (Nat.le_trans (Nat.le_succ _) hstep3.2.1))
        have hself4 : st.fresh ≠ st4.reg.selfId := by
          have hs : st4.reg.selfId = st.reg.selfId := inner.1
          rw [hs]
          exact ne_of_gt hfr.1
        have htrue4 : hasRoute st4.reg (trimName name) = true :=
          hstep4.hasRoute_true (hstep3.hasRoute_true htrue2)
        rcases registerRoute_ok_inv (r := ⟨st.fresh, trimName name⟩) hself4 hreg2 with
          ⟨hf, _, _⟩ | ⟨hf, _, _⟩
        · have hmem := List.mem_of_find?_eq_some hf
          rcases inner.2.2.2.1 _ hmem with hmem | hge
          · exact absurd rfl (Nat.ne_of_lt (hfr.2 _ hmem))
          · exact absurd hge (by simp)
        · rw [show hasRoute st4.reg (trimName name) = false from by
            simp only [hasRoute, hf, Option.isSome_none]] at htrue4
          exact absurd htrue4 (by simp)
      | none =>
        obtain ⟨st2, h2, h⟩ := exceptBind_ok h
        have hst2 := pureCfg_ok h2
        subst hst2
        obtain ⟨st3, h3, h⟩ := exceptBind_ok h
        obtain ⟨hfr3, hstep3, hTrue3, hFalse3, hNodup3⟩ := load_inv_if ihR hasRoutes _ _ hfr1 h3
        obtain ⟨st4, h4, h⟩ := exceptBind_ok h
        obtain ⟨hfr4, hstep4, hTrue4, hFalse4, hNodup4⟩ := load_inv_if ihRes hasResource _ _ hfr3 h4
        obtain ⟨rr2, hreg2, h⟩ := exceptBind_ok h
        obtain ⟨st5, h5, h⟩ := exceptBind_ok h
        have hst5 := pureCfg_ok h5
        subst hst5
        have inner : StepInv (st.fresh + 1) ⟨st.reg, st.fresh + 1⟩ st4 :=
          (hstep3.mono (Nat.le_refl _)).trans
            (hstep4.mono hstep3.2.1)
        have hnotin4 : ∀ r ∈ st4.reg.routes, r.id ≠ st.fresh := by
          intro r hr
          rcases inner.2.2.2.1 r hr with hmem | hge
          · exact Nat.ne_of_lt (hfr.2 r hmem)
          · exact ne_of_gt (Nat.lt_of_succ_le hge)
        have hself4 : st.fresh ≠ st4.reg.selfId := by
          have hs : st4.reg.selfId = st.reg.selfId := inner.1
          rw [hs]
          exact ne_of_gt hfr.1
        have hif4 : st.fresh < st4.fresh :=
          Nat.lt_of_lt_of_le (Nat.lt_succ_self _) inner.2.1
        obtain ⟨hfr5, hstep5, htrue5, hfalse5⟩ :=
          registerRoute_step hfr4 (Nat.le_refl _) hnotin4 hself4
            (Nat.le_refl _) hif4 hreg2
        obtain ⟨hfrR, hstepR, hTrueR, hFalseR, hNodupR⟩ := ihRest _ _ hfr5 h
        have step0 : StepInv st.fresh st ⟨st.reg, st.fresh + 1⟩ :=
          ⟨Eq.refl _, Nat.le_succ _, fun _ hh => hh, fun r hr => Or.inl hr, id⟩
        have chain03 : StepInv st.fresh st st3 :=
          step0.trans (hstep3.mono (Nat.le_succ _))
        have chain04 : StepInv st.fresh st st4 :=
          chain03.trans (hstep4.mono (Nat.le_trans (Nat.le_succ _) hstep3.2.1))
        have chain05 : StepInv st.fresh st ⟨rr2.1, st4.fresh⟩ :=
          chain04.trans hstep5
        have hchain : StepInv st.fresh st st' :=
          chain05.trans (hstepR.mono (Nat.le_of_lt hif4))
        simp only [Configs.allNames]
        refine ⟨hfrR, hchain, ?_, ?_, ?_⟩
        · intro n hn
          rcases List.mem_cons.1 hn with hn | hn
          · subst hn
            exact hstepR.hasRoute_true htrue5
          rcases List.mem_append.1 hn with hn | hn
          · rcases List.mem_append.1 hn with hn | hn
            · exact hstepR.hasRoute_true
                (hstep5.hasRoute_true (hstep4.hasRoute_true (hTrue3 n hn)))
            · exact hstepR.hasRoute_true (hstep5.hasRoute_true (hTrue4 n hn))
          · exact hTrueR n hn
        · intro n hn
          rcases List.mem_cons.1 hn with hn | hn
          · subst hn
            simpa using hdup0
          rcases List.mem_append.1 hn with hn | hn
          · rcases List.mem_append.1 hn with hn | hn
            · exact step0.hasRoute_false (hFalse3 n hn)
            · exact chain03.hasRoute_false (hFalse4 n hn)
          · exact chain05.hasRoute_false (hFalseR n hn)
        · refine List.nodup_cons.2 ⟨?_, ?_⟩
          · intro hm
            rcases List.mem_append.1 hm with hm | hm
            · rcases List.mem_append.1 hm with hm | hm
              · have ht := hstep4.hasRoute_true (hTrue3 _ hm)
                rw [hfalse5] at ht
                exact absurd ht (by simp)
              · have ht := hTrue4 _ hm
                rw [hfalse5] at ht
                exact absurd ht (by simp)
            · have hfm := hFalseR _ hm
              rw [htrue5] at hfm
              exact absurd hfm (by simp)
          · refine List.nodup_append.2
              ⟨List.nodup_append.2 ⟨hNodup3, hNodup4, ?_⟩, hNodupR, ?_⟩
            · intro a ha hb
              have ht3 := hTrue3 a ha
              have hfm := hFalse4 a hb
              rw [ht3] at hfm
              exact absurd hfm (by simp)
            · intro a ha hc
              have hfm := hFalseR a hc
              rcases List.mem_append.1 ha with ha | ha
              · have ht := hstep5.hasRoute_true (hstep4.hasRoute_true (hTrue3 a ha))
                rw [ht] at hfm
                exact absurd hfm (by simp)
              · have ht := hstep5.hasRoute_true (hTrue4 a ha)
                rw [ht] at hfm
                exact absurd hfm (by simp)

end Routicorn

namespace Routicorn

instance decFreshOk (st : LoadState) : Decidable (FreshOk st) :=
  inferInstanceAs (Decidable (st.reg.selfId < st.fresh ∧ ∀ r ∈ st.reg.routes, r.id < st.fresh))

/-- C9: whenever two route config entries anywhere in a config tree (including
entries contributed by an included resource file) carry the same trimmed route
name, loading fails with a ConfigError — the loader never returns a route set —
and a successful load preserves the registry invariant that no two registered
routes share a name. -/
theorem claim_C9 (st : LoadState) (cfgs : Configs) (hfr : FreshOk st) :
    (¬ cfgs.allNames.Nodup → ∀ st', createRoutesFromConfigs st cfgs ≠ .ok st') ∧
    (∀ st', createRoutesFromConfigs st cfgs = .ok st' →
      (st.reg.routes.map RegRoute.name).Nodup →
      (st'.reg.routes.map RegRoute.name).Nodup) := by
  constructor
  · intro hdup st' h
    exact hdup (load_inv cfgs st st' hfr h).2.2.2.2
  · intro st' h hnd
    exact (load_inv cfgs st st' hfr h).2.1.2.2.2.2 hnd

/-- A config tree with a duplicated name: a top-level entry `a` and, inside the
nested routes of the sibling segment `b`, a second entry named `\x20a\x20`
(trimming to `a`). -/
def claimC9dup : Configs :=
  .cons "a" "/" (some "c") false .nil false .nil
    (.cons "b" "/" none true (.cons " a " "/x" (some "e") false .nil false .nil .nil)
      false .nil .nil)

theorem claim_C9_witness :
    createRoutesFromConfigs ⟨⟨0, []⟩, 1⟩ claimC9dup ≠ .ok ⟨⟨0, []⟩, 1⟩ ∧
    (((⟨⟨0, [⟨1, "a"⟩]⟩, 2⟩ : LoadState).reg.routes.map RegRoute.name).Nodup) :=
  ⟨(claim_C9 ⟨⟨0, []⟩, 1⟩ claimC9dup (by decide)).1 (by decide) ⟨⟨0, []⟩, 1⟩,
   (claim_C9 ⟨⟨0, []⟩, 1⟩ (.cons "a" "/" (some "c") false .nil false .nil .nil) (by decide)).2
     ⟨⟨0, [⟨1, "a"⟩]⟩, 2⟩ (by decide) (by decide)⟩

end Routicorn
